import Mathlib

set_option autoImplicit false

/-!
Verification development for the shortest-path network of `reseau.cpp`.

The C++ code is shallowly embedded as executable Lean definitions:

* `std::map` containers are modelled as association lists kept sorted by key,
  so iteration order is the ascending key order of `std::map`.  The
  `std::unordered_map` / `std::unordered_set` containers used for the
  distance, predecessor and working-set structures have unspecified
  iteration order in C++; this embedding instantiates that order as the
  ascending insertion order produced by iterating `m_arcs`, which is one
  admissible behaviour of the library containers.
* `unsigned int` values are natural numbers reduced modulo 2^32, and `int`
  values are integers in [-2^31, 2^31); the implementation-defined or
  undefined C++ conversions and overflows on these 32-bit machine types are
  modelled as wrap-around (two-complement) arithmetic, made explicit through
  `toU32`, `toI32` and `uadd32`.
* a C++ method that throws `std::logic_error` is modelled with
  `Except String`.
* lookups of keys absent from an `unordered_map` through `operator[]`
  value-initialize the mapped value; the maps are therefore modelled as
  total functions whose value on absent keys is the value-initialized one
  (0, false, ...), and `std::map::operator[]` on `m_arcs` (which inserts an
  empty adjacency list) is modelled explicitly by `accesArcs`.
-/

/-- Conversion of a C++ `int` to `unsigned int` (modular reduction). -/
def toU32 (i : Int) : Nat := (i % 4294967296).toNat

/-- Conversion of a C++ `unsigned int` (or any natural) to `int`,
with the usual two-complement wrap-around. -/
def toI32 (n : Nat) : Int :=
  if n % 4294967296 < 2147483648 then ((n % 4294967296 : Nat) : Int)
  else ((n % 4294967296 : Nat) : Int) - 4294967296

/-- The C++ expression `w + d` where `w` is `unsigned int` and `d` is `int`,
assigned back to an `int`: both operands convert to `unsigned`, the sum wraps
modulo 2^32 and the result converts back to `int`. -/
def uadd32 (w : Nat) (d : Int) : Int := toI32 ((w + toU32 d) % 4294967296)

/-- `std::numeric_limits<int>::max()`, the unreachable-distance sentinel. -/
def maxPoids : Int := 2147483647

/-- Pointwise update of a total map, modelling an assignment `f[k] = x`. -/
def maj {α : Type} (f : Nat → α) (k : Nat) (x : α) : Nat → α :=
  fun v => if v = k then x else f v

/-- Lookup in an association list (`std::map::find` / `count`). -/
def lookupA {α : Type} : List (Nat × α) → Nat → Option α
  | [], _ => none
  | (k, v) :: reste, cle => if k = cle then some v else lookupA reste cle

/-- Insertion (or replacement) in a sorted association list, keeping the
ascending key order of `std::map`. -/
def insereTrie {α : Type} : List (Nat × α) → Nat → α → List (Nat × α)
  | [], cle, v => [(cle, v)]
  | (k, w) :: reste, cle, v =>
    if cle < k then (cle, v) :: (k, w) :: reste
    else if cle = k then (cle, v) :: reste
    else (k, w) :: insereTrie reste cle v

/-- Erasure by key in an association list (`std::map::erase`). -/
def effaceA {α : Type} : List (Nat × α) → Nat → List (Nat × α)
  | [], _ => []
  | (k, w) :: reste, cle => if k = cle then reste else (k, w) :: effaceA reste cle

/-- Update of the value stored under an existing key. -/
def majA {α : Type} : List (Nat × α) → Nat → (α → α) → List (Nat × α)
  | [], _, _ => []
  | (k, w) :: reste, cle, f => if k = cle then (k, f w) :: reste else (k, w) :: majA reste cle f

/-- Adjacency list of one vertex: destination, cost, type — the mapped
`std::map<unsigned int, std::pair<unsigned int, unsigned int>>`. -/
abbrev ListeArcs := List (Nat × Nat × Nat)

/-- The network: `m_arcs` maps each vertex to its outgoing arcs, plus the two
cached counters of `Reseau`. -/
structure Reseau where
  m_arcs : List (Nat × ListeArcs)
  nbSommets : Int
  nbArcs : Int
deriving DecidableEq, Repr

/-- `Reseau::nombreSommets`. -/
def nombreSommets (g : Reseau) : Int := g.nbSommets

/-- `Reseau::nombreArcs`. -/
def nombreArcs (g : Reseau) : Int := g.nbArcs

/-- `Reseau::estVide`. -/
def estVide (g : Reseau) : Bool := g.nbSommets = 0

/-- `Reseau::sommetExiste`. -/
def sommetExiste (g : Reseau) (numero : Nat) : Bool := (lookupA g.m_arcs numero).isSome

/-- `Reseau::arcExiste`; throws when one of the two vertices is absent. -/
def arcExiste (g : Reseau) (numOrigine numDest : Nat) : Except String Bool :=
  if !(sommetExiste g numOrigine && sommetExiste g numDest) then
    .error "arcExiste: Un des sommets n existe pas!"
  else
    .ok ((lookupA ((lookupA g.m_arcs numOrigine).getD []) numDest).isSome)

/-- `Reseau::ajouterSommet`. -/
def ajouterSommet (g : Reseau) (numero : Nat) : Except String Reseau :=
  if sommetExiste g numero then
    .error "ajouterSommet: Un sommet avec le numero existe!"
  else
    .ok { g with m_arcs := insereTrie g.m_arcs numero [], nbSommets := g.nbSommets + 1 }

/-- `Reseau::ajouterArc`; the `unsigned int` parameters wrap modulo 2^32. -/
def ajouterArc (g : Reseau) (numOrigine numDest cout typ : Nat) : Except String Reseau :=
  match arcExiste g numOrigine numDest with
  | .error e => .error e
  | .ok true => .error "ajouterArc: arc deja existant"
  | .ok false =>
    .ok { g with
          m_arcs := majA g.m_arcs numOrigine
            (fun adj => insereTrie adj numDest (cout % 4294967296, typ % 4294967296)),
          nbArcs := g.nbArcs + 1 }

/-- `Reseau::enleverArc`. -/
def enleverArc (g : Reseau) (numOrigine numDest : Nat) : Except String Reseau :=
  match arcExiste g numOrigine numDest with
  | .error e => .error e
  | .ok false => .error "enleverArc: arc non existant"
  | .ok true =>
    .ok { g with
          m_arcs := majA g.m_arcs numOrigine (fun adj => effaceA adj numDest),
          nbArcs := g.nbArcs - 1 }

/-- `Reseau::enleverSommet`: iterates over all origins removing incoming arcs
through `enleverArc` (which decrements `nbArcs`), then erases the vertex entry
itself — without decrementing `nbArcs` for the outgoing arcs it drops. -/
def enleverSommet (g : Reseau) (numero : Nat) : Except String Reseau :=
  if !(sommetExiste g numero) then
    .error "enleverSommet: le sommet n existe pas"
  else
    let g2 := (g.m_arcs.map (·.1)).foldl
      (fun acc origine =>
        match arcExiste acc origine numero with
        | .ok true =>
          match enleverArc acc origine numero with
          | .ok acc2 => acc2
          | .error _ => acc
        | _ => acc) g
    .ok { g2 with m_arcs := effaceA g2.m_arcs numero, nbSommets := g2.nbSommets - 1 }

/-- `Reseau::majCoutArc`. -/
def majCoutArc (g : Reseau) (numOrigine numDest cout : Nat) : Except String Reseau :=
  match arcExiste g numOrigine numDest with
  | .error e => .error e
  | .ok false => .error "majCoutArc: arc non existant"
  | .ok true =>
    .ok { g with
          m_arcs := majA g.m_arcs numOrigine
            (fun adj => majA adj numDest (fun cv => (cout % 4294967296, cv.2))) }

/-- `Reseau::getCoutArc`: the stored `unsigned int` cost returned as `int`. -/
def getCoutArc (g : Reseau) (numOrigine numDest : Nat) : Except String Int :=
  match arcExiste g numOrigine numDest with
  | .error e => .error e
  | .ok false => .error "getCoutArc: arc non existant"
  | .ok true =>
    .ok (toI32 ((lookupA ((lookupA g.m_arcs numOrigine).getD []) numDest).getD (0, 0)).1)

/-- `Reseau::getTypeArc`: the stored `unsigned int` type returned as `int`. -/
def getTypeArc (g : Reseau) (numOrigine numDest : Nat) : Except String Int :=
  match arcExiste g numOrigine numDest with
  | .error e => .error e
  | .ok false => .error "getTypeArc: arc non existant"
  | .ok true =>
    .ok (toI32 ((lookupA ((lookupA g.m_arcs numOrigine).getD []) numDest).getD (0, 0)).2)

/-- Total number of (origin, destination) entries across all adjacency
lists — the quantity `nbArcs` is supposed to cache. -/
def arcsTotal (g : Reseau) : Nat := (g.m_arcs.map (fun p => p.2.length)).sum

/-- Well-formedness of a network as maintained by the mutators: sorted outer
and inner association lists, arc endpoints that exist, ids and stored values
in `unsigned int` range, and the vertex counter in sync. (The arc counter is
deliberately not part of this predicate: `enleverSommet` breaks it.) -/
def Reseau.WF (g : Reseau) : Prop :=
  g.m_arcs.Pairwise (fun a b => a.1 < b.1) ∧
  (∀ p ∈ g.m_arcs, p.2.Pairwise (fun a b => a.1 < b.1)) ∧
  (∀ p ∈ g.m_arcs, ∀ q ∈ p.2, (lookupA g.m_arcs q.1).isSome = true) ∧
  (∀ p ∈ g.m_arcs, p.1 < 4294967296 ∧
    ∀ q ∈ p.2, q.1 < 4294967296 ∧ q.2.1 < 4294967296 ∧ q.2.2 < 4294967296) ∧
  g.nbSommets = (g.m_arcs.length : Int)

instance (g : Reseau) : Decidable g.WF := by
  unfold Reseau.WF; infer_instance

/-! ## The dense O(V^2) Dijkstra (`Reseau::dijkstra`) -/

/-- `std::map::operator[]` on `m_arcs`: returns the stored adjacency list, or
inserts (and returns) an empty one when the key is absent. -/
def accesArcs (m : List (Nat × ListeArcs)) (cle : Nat) : (List (Nat × ListeArcs)) × ListeArcs :=
  match lookupA m cle with
  | some l => (m, l)
  | none => (insereTrie m cle [], [])

/-- The linear scan for the vertex of `Q` with minimal tentative distance:
starts from `*(Q.begin())` and keeps the strictly smaller candidate. -/
def noeudMinDe (ensQ : List Nat) (dist : Nat → Int) : Nat :=
  match ensQ with
  | [] => 0
  | n :: _ => ensQ.foldl (fun m x => if dist x < dist m then x else m) n

/-- State of the dense Dijkstra main loop: the (threaded) arc map, the
distance and predecessor maps, and the working set `Q`. -/
structure EtatDijkstra where
  arcs : List (Nat × ListeArcs)
  dist : Nat → Int
  pred : Nat → Int
  ensQ : List Nat

/-- The relaxation of all arcs leaving the extracted vertex, restricted to
far endpoints still in `Q` (`Reseau::dijkstra`, inner loop). -/
def relaxerDense (nm : Nat) (ensQ2 : List Nat) :
    List (Nat × Nat × Nat) → (Nat → Int) → (Nat → Int) → ((Nat → Int) × (Nat → Int))
  | [], dist, pred => (dist, pred)
  | (voisin, poids, _typ) :: reste, dist, pred =>
    if voisin ∈ ensQ2 then
      let temp := uadd32 poids (dist nm)
      if temp < dist voisin then
        relaxerDense nm ensQ2 reste (maj dist voisin temp) (maj pred voisin (toI32 nm))
      else relaxerDense nm ensQ2 reste dist pred
    else relaxerDense nm ensQ2 reste dist pred

/-- The dense Dijkstra main loop, run `nbSommets` times with an early break
once the destination is extracted. -/
def boucleDijkstra (numDest : Nat) : Nat → EtatDijkstra → EtatDijkstra
  | 0, s => s
  | n + 1, s =>
    let nm := noeudMinDe s.ensQ s.dist
    let q2 := s.ensQ.erase nm
    if nm = numDest then { s with ensQ := q2 }
    else
      let acces := accesArcs s.arcs nm
      let dp := relaxerDense nm q2 acces.2 s.dist s.pred
      boucleDijkstra numDest n { arcs := acces.1, dist := dp.1, pred := dp.2, ensQ := q2 }

/-- Path reconstruction shared verbatim by `dijkstra` and `bellmanFord`:
follow predecessors from the destination until the -1 sentinel, building the
path in origin-to-destination order. The C++ `while` loop has no bound; the
fuel makes the recursion total, and `none` means the fuel was exhausted. A
fuel of `nbSommets + 1` is exact: the C++ loop either stops within that many
steps or revisits a vertex of the deterministic predecessor chain and then
never stops. -/
def remonterChemin (pred : Nat → Int) : Nat → Int → List Nat → Option (List Nat)
  | 0, _, _ => none
  | fuel + 1, courant, acc =>
    if courant = -1 then some acc
    else remonterChemin pred fuel (pred (toU32 courant)) (toU32 courant :: acc)

/-- `Reseau::dijkstra`, returning the distance, the reconstructed path and
the final `m_arcs` map (as mutated by `operator[]` accesses). -/
def dijkstraComplet (g : Reseau) (numOrigine numDest : Nat) :
    Except String (Int × Option (List Nat) × List (Nat × ListeArcs)) :=
  if !(sommetExiste g numOrigine) || !(sommetExiste g numDest) then
    .error "dijkstra: Un des sommets n existe pas!"
  else
    let dist0 := fun v => if (lookupA g.m_arcs v).isSome then maxPoids else 0
    let pred0 := fun v => if (lookupA g.m_arcs v).isSome then (-1 : Int) else 0
    let dist1 := maj dist0 numOrigine 0
    let s0 : EtatDijkstra :=
      { arcs := g.m_arcs, dist := dist1, pred := pred0, ensQ := g.m_arcs.map (·.1) }
    let fin := boucleDijkstra numDest g.nbSommets.toNat s0
    let chemin :=
      if fin.pred numDest ≠ -1 then
        remonterChemin fin.pred (g.nbSommets.toNat + 1) (toI32 numDest) []
      else some []
    .ok (fin.dist numDest, chemin, fin.arcs)

/-- `Reseau::dijkstra` restricted to its caller-visible result: the returned
distance and the `chemin` output vector. -/
def dijkstra (g : Reseau) (numOrigine numDest : Nat) :
    Except String (Int × Option (List Nat)) :=
  (dijkstraComplet g numOrigine numDest).map (fun r => (r.1, r.2.1))

/-! ## Bellman-Ford (`Reseau::bellmanFord`) -/

/-- Relaxation of all arcs leaving `nc` in one Bellman-Ford pass; note the
`temp >= 0` guard of the C++ code, which rejects any update that would store
a negative distance. -/
def relaxerBellman (nc : Nat) :
    List (Nat × Nat × Nat) → (Nat → Int) → (Nat → Int) → Bool →
      ((Nat → Int) × (Nat → Int) × Bool)
  | [], dist, pred, instable => (dist, pred, instable)
  | (voisin, poids, _typ) :: reste, dist, pred, instable =>
    let temp := uadd32 poids (dist nc)
    if temp < dist voisin ∧ 0 ≤ temp then
      relaxerBellman nc reste (maj dist voisin temp) (maj pred voisin (toI32 nc)) true
    else
      relaxerBellman nc reste dist pred instable

/-- One Bellman-Ford pass over all vertices (ascending `m_arcs` order),
skipping vertices whose tentative distance is still the sentinel. -/
def passeBellman :
    List (Nat × ListeArcs) → (Nat → Int) → (Nat → Int) → Bool →
      ((Nat → Int) × (Nat → Int) × Bool)
  | [], dist, pred, instable => (dist, pred, instable)
  | (nc, adj) :: reste, dist, pred, instable =>
    if dist nc < maxPoids then
      let r := relaxerBellman nc adj dist pred instable
      passeBellman reste r.1 r.2.1 r.2.2
    else
      passeBellman reste dist pred instable

/-- The Bellman-Ford outer loop: at most `nbSommets - 1` passes, stopping as
soon as a pass is stable. -/
def bouclesBellman (arcs : List (Nat × ListeArcs)) :
    Nat → (Nat → Int) → (Nat → Int) → ((Nat → Int) × (Nat → Int))
  | 0, dist, pred => (dist, pred)
  | n + 1, dist, pred =>
    let r := passeBellman arcs dist pred false
    if r.2.2 then bouclesBellman arcs n r.1 r.2.1 else (r.1, r.2.1)

/-- `Reseau::bellmanFord`. -/
def bellmanFord (g : Reseau) (numOrigine numDest : Nat) :
    Except String (Int × Option (List Nat)) :=
  if !(sommetExiste g numOrigine) || !(sommetExiste g numDest) then
    .error "bellmanFord: Un des sommets n existe pas!"
  else
    let dist0 := fun v => if (lookupA g.m_arcs v).isSome then maxPoids else 0
    let pred0 := fun v => if (lookupA g.m_arcs v).isSome then (-1 : Int) else 0
    let dist1 := maj dist0 numOrigine 0
    let dp := bouclesBellman g.m_arcs (g.nbSommets - 1).toNat dist1 pred0
    let chemin :=
      if dp.2 numDest ≠ -1 then
        remonterChemin dp.2 (g.nbSommets.toNat + 1) (toI32 numDest) []
      else some []
    .ok (dp.1 numDest, chemin)

/-! ## The pairing heap driven by `Reseau::meilleurPlusCourtChemin`

Modelled from the spec: the file `PairingH.h` (class `PairingH`, nodes
`Noeud` with fields `distance` and `m_sommet`) is not part of the captured
sources; this functional pairing heap follows the spec section 4.2 —
`insert` melds a singleton with the root, `deleteMinimum` removes the root
and recombines its children with the standard two-pass pairing merge, and
`decreaseKey` either lowers the root key in place or detaches the subtree
rooted at the handle, lowers its key and melds it back with the root. The
spec leaves key ties in a meld unspecified; this model keeps the first
argument (the current root) on ties. C++ node pointers are replaced by the
vertex payload, which uniquely identifies a node since each vertex is
inserted exactly once and never reinserted. -/

mutual

/-- A pairing-heap node: key (`distance`), payload (`m_sommet`), children. -/
inductive Noeud : Type where
  | mk : Nat → Nat → Foret → Noeud
deriving DecidableEq

/-- A list of pairing-heap subtrees. -/
inductive Foret : Type where
  | nil : Foret
  | cons : Noeud → Foret → Foret
deriving DecidableEq

end

/-- Key of a node. -/
def Noeud.distance : Noeud → Nat
  | .mk d _ _ => d

/-- Payload (vertex id) of a node. -/
def Noeud.m_sommet : Noeud → Nat
  | .mk _ s _ => s

/-- Meld of two heap-ordered trees: the smaller key becomes the root and
adopts the other tree as its first child; ties keep the first argument. -/
def fusionner : Noeud → Noeud → Noeud
  | .mk d1 s1 e1, .mk d2 s2 e2 =>
    if d1 ≤ d2 then .mk d1 s1 (.cons (.mk d2 s2 e2) e1)
    else .mk d2 s2 (.cons (.mk d1 s1 e1) e2)

/-- `PairingH::ajouterNoeud`: meld a fresh singleton with the root. -/
def ajouterNoeud (tas : Option Noeud) (d s : Nat) : Option Noeud :=
  match tas with
  | none => some (.mk d s .nil)
  | some r => some (fusionner r (.mk d s .nil))

/-- The root key and payload (`PairingH::getRacine`); the empty case never
arises in a correctly driven run and returns the value-initialized pair. -/
def getRacine (tas : Option Noeud) : Nat × Nat :=
  match tas with
  | none => (0, 0)
  | some (.mk d s _) => (d, s)

/-- The standard two-pass pairing merge of a child list: meld adjacent pairs
left to right, then meld the results right to left. -/
def fusionnerPaires : Foret → Option Noeud
  | .nil => none
  | .cons n .nil => some n
  | .cons n1 (.cons n2 reste) =>
    match fusionnerPaires reste with
    | none => some (fusionner n1 n2)
    | some r => some (fusionner (fusionner n1 n2) r)

/-- `PairingH::supprimerRacine`: drop the root, recombine its children. -/
def supprimerRacine (tas : Option Noeud) : Option Noeud :=
  match tas with
  | none => none
  | some (.mk _ _ enfants) => fusionnerPaires enfants

mutual

/-- Key currently stored for the node of payload `v` (pointer dereference
`sommets[v].first->distance` in the C++ code). -/
def chercherN (v : Nat) : Noeud → Option Nat
  | .mk d s e => if s = v then some d else chercherF v e

/-- `chercherN` over a child list. -/
def chercherF (v : Nat) : Foret → Option Nat
  | .nil => none
  | .cons n reste =>
    match chercherN v n with
    | some k => some k
    | none => chercherF v reste

end

mutual

/-- Detach the subtree whose root has payload `v` from below the given node,
returning the node without that subtree, and the subtree. -/
def detacherN (v : Nat) : Noeud → Option (Noeud × Noeud)
  | .mk d s e =>
    match detacherF v e with
    | some (e2, sub) => some (.mk d s e2, sub)
    | none => none

/-- `detacherN` over a child list. -/
def detacherF (v : Nat) : Foret → Option (Foret × Noeud)
  | .nil => none
  | .cons n reste =>
    if n.m_sommet = v then some (reste, n)
    else
      match detacherN v n with
      | some (n2, sub) => some (.cons n2 reste, sub)
      | none =>
        match detacherF v reste with
        | some (reste2, sub) => some (.cons n reste2, sub)
        | none => none

end

/-- `PairingH::diminuerDistance`: lower the key of the node with payload `v`
to `nouvelle` — in place when that node is the root, otherwise by detaching
its subtree and melding it back with the root (root kept on ties). -/
def diminuerDistance (tas : Option Noeud) (v : Nat) (nouvelle : Nat) : Option Noeud :=
  match tas with
  | none => none
  | some (.mk d s e) =>
    if s = v then some (.mk nouvelle s e)
    else
      match detacherN v (.mk d s e) with
      | some (reste, .mk _ sv ev) => some (fusionner reste (.mk nouvelle sv ev))
      | none => some (.mk d s e)

/-! ## The heap-accelerated Dijkstra (`Reseau::meilleurPlusCourtChemin`) -/

/-- State of the heap-accelerated main loop: the (threaded) arc map, the
heap, and the `sommets` map split into its two components — `actif v` is
`sommets[v].first != nullptr` and `pred v` is `sommets[v].second` (with the
value-initialized `(nullptr, 0)` on absent keys). -/
structure EtatHeap where
  arcs : List (Nat × ListeArcs)
  tas : Option Noeud
  actif : Nat → Bool
  pred : Nat → Nat
  longueur : Nat
  fini : Bool

/-- Relaxation of the arcs leaving the extracted vertex `vU` (key `distU`):
for each still-active far endpoint, compare `distU + w` (unsigned, wrapping)
with its current heap key and decrease the key and record the predecessor
when smaller. -/
def relaxerHeap (actif : Nat → Bool) (distU vU : Nat) :
    List (Nat × Nat × Nat) → Option Noeud → (Nat → Nat) → (Option Noeud × (Nat → Nat))
  | [], tas, pred => (tas, pred)
  | (voisin, poids, _typ) :: reste, tas, pred =>
    if actif voisin then
      let distTemp := (distU + poids) % 4294967296
      let distV := ((tas.bind (chercherN voisin)).getD 0)
      if distTemp < distV then
        relaxerHeap actif distU vU reste (diminuerDistance tas voisin distTemp)
          (maj pred voisin vU)
      else relaxerHeap actif distU vU reste tas pred
    else relaxerHeap actif distU vU reste tas pred

/-- One iteration of the heap main loop: read the root, relax its outgoing
arcs, record the distance and stop once the root is the destination, mark
the vertex settled, delete the root. -/
def iterHeap (numDest : Nat) (s : EtatHeap) : EtatHeap :=
  let r := getRacine s.tas
  let acces := accesArcs s.arcs r.2
  let tp := relaxerHeap s.actif r.1 r.2 acces.2 s.tas s.pred
  let lf : Nat × Bool :=
    if r.2 = numDest then (((tp.1.bind (chercherN r.2)).getD r.1), true)
    else (s.longueur, s.fini)
  { arcs := acces.1, tas := supprimerRacine tp.1, actif := maj s.actif r.2 false,
    pred := tp.2, longueur := lf.1, fini := lf.2 }

/-- The heap main loop: `m_arcs.size()` iterations with the early stop flag
(the C++ `i = max_iter` assignment). -/
def boucleHeap (numDest : Nat) : Nat → EtatHeap → EtatHeap
  | 0, s => s
  | n + 1, s => if s.fini then s else boucleHeap numDest n (iterHeap numDest s)

/-- Initial heap: every vertex inserted with the hard-coded key 9999, in
`m_arcs` order. -/
def tasInitial (cles : List Nat) : Option Noeud :=
  cles.foldl (fun tas v => ajouterNoeud tas 9999 v) none

/-- `Reseau::meilleurPlusCourtChemin` up to (and excluding) the path
reconstruction: vertex existence check, heap construction, origin key
decreased to 0, and the main loop. -/
def meilleurPCCEtat (g : Reseau) (numOrigine numDest : Nat) : Except String EtatHeap :=
  if !(sommetExiste g numOrigine) || !(sommetExiste g numDest) then
    .error "dijkstra: Un des sommets n existe pas!"
  else
    let cles := g.m_arcs.map (·.1)
    let tas0 := diminuerDistance (tasInitial cles) numOrigine 0
    let s0 : EtatHeap :=
      { arcs := g.m_arcs, tas := tas0,
        actif := fun v => (lookupA g.m_arcs v).isSome,
        pred := fun v => if (lookupA g.m_arcs v).isSome then 9999 else 0,
        longueur := 0, fini := false }
    .ok (boucleHeap numDest g.m_arcs.length s0)

/-- The distance value `longueur_chemin` computed by the heap main loop. -/
def heapLongueur (g : Reseau) (numOrigine numDest : Nat) : Except String Nat :=
  (meilleurPCCEtat g numOrigine numDest).map (·.longueur)

/-- The heap-variant reconstruction loop `while (courant != numOrigine)`,
which pushes vertices in destination-to-origin order and is NOT reversed
afterwards. The C++ loop has no bound; `none` means the fuel ran out, and
since the predecessor chain is a deterministic walk on finitely many values,
the C++ loop runs forever exactly when every fuel yields `none`. -/
def remonterHeap (pred : Nat → Nat) (numOrigine : Nat) : Nat → Nat → Option (List Nat)
  | 0, _ => none
  | fuel + 1, courant =>
    if courant = numOrigine then some []
    else (remonterHeap pred numOrigine fuel (pred courant)).map (fun l => courant :: l)

/-- `Reseau::meilleurPlusCourtChemin`: the full operation. `ok none` means
the reconstruction loop exceeded the given fuel; `ok (some (d, ch))` is a
normal return with distance `d` (the `unsigned int` counter `longueur_chemin`
converted through the `int` return type) and path `ch`. When
`sommets[numDest].second` is 0 the code prints a message and returns the
empty path. -/
def meilleurPlusCourtChemin (g : Reseau) (numOrigine numDest : Nat) (fuel : Nat) :
    Except String (Option (Int × List Nat)) :=
  match meilleurPCCEtat g numOrigine numDest with
  | .error e => .error e
  | .ok s =>
    if s.pred numDest = 0 then .ok (some (toI32 s.longueur, []))
    else
      match remonterHeap s.pred numOrigine fuel numDest with
      | none => .ok none
      | some l => .ok (some (toI32 s.longueur, numOrigine :: l))

/-- The heap-variant reconstruction loop never terminates, whatever the
fuel: the C++ call runs forever. -/
def heapDiverge (g : Reseau) (numOrigine numDest : Nat) : Prop :=
  ∀ fuel, meilleurPlusCourtChemin g numOrigine numDest fuel = .ok none

/-! ## Concrete networks used by the specification scenarios -/

/-- The reference network of the spec: vertices {1,2,3,4}, arcs
(1→2, w=1), (2→3, w=2), (1→3, w=5), (3→4, w=1). -/
def gRef : Reseau :=
  { m_arcs := [(1, [(2, 1, 0), (3, 5, 0)]), (2, [(3, 2, 0)]), (3, [(4, 1, 0)]), (4, [])],
    nbSommets := 4, nbArcs := 4 }

instance {ε α : Type} [DecidableEq ε] [DecidableEq α] : DecidableEq (Except ε α) := by
  intro a b
  cases a <;> cases b
  case error.error e1 e2 =>
    exact if h : e1 = e2 then .isTrue (by rw [h]) else .isFalse (by intro hc; cases hc; exact h rfl)
  case error.ok e1 a2 => exact .isFalse (by intro hc; cases hc)
  case ok.error a1 e2 => exact .isFalse (by intro hc; cases hc)
  case ok.ok a1 a2 =>
    exact if h : a1 = a2 then .isTrue (by rw [h]) else .isFalse (by intro hc; cases hc; exact h rfl)

/-- The unreachability scenario of the spec: vertex 5 has no arcs at all,
vertex 1 is the origin. -/
def gIsole : Reseau :=
  { m_arcs := [(1, []), (5, [])], nbSommets := 2, nbArcs := 0 }

/-- Two vertices, one arc of weight 10000 — a shortest distance beyond the
hard-coded initial heap key 9999. -/
def gDix : Reseau :=
  { m_arcs := [(1, [(2, 10000, 0)]), (2, [])], nbSommets := 2, nbArcs := 1 }

/-- Two vertices and no arc: vertex 2 unreachable from vertex 1. -/
def gDeux : Reseau :=
  { m_arcs := [(1, []), (2, [])], nbSommets := 2, nbArcs := 0 }

/-- One arc 1→2 (w=1): removing vertex 1 drops the outgoing arc. -/
def gSortant : Reseau :=
  { m_arcs := [(1, [(2, 1, 0)]), (2, [])], nbSommets := 2, nbArcs := 1 }

/-- Negative-arc scenario where the running distance would become negative:
1→2 (w=2), 2→3 (w=-10 stored as the unsigned 4294967286). -/
def gNegRejet : Reseau :=
  { m_arcs := [(1, [(2, 2, 0)]), (2, [(3, 4294967286, 0)]), (3, [])],
    nbSommets := 3, nbArcs := 2 }

/-- Negative-arc scenario of the spec with non-negative running distances:
1→2 (w=15), 1→3 (w=20), 2→3 (w=-10 stored as 4294967286). -/
def gNegOk : Reseau :=
  { m_arcs := [(1, [(2, 15, 0), (3, 20, 0)]), (2, [(3, 4294967286, 0)]), (3, [])],
    nbSommets := 3, nbArcs := 3 }

/-- The network `gSortant` after `enleverSommet 1`, as the code leaves it. -/
def gSortantApres : Reseau := { m_arcs := [(2, [])], nbSommets := 1, nbArcs := 1 }

/-- All three path operations succeed on `(o, d)` and report the same
distance (`int`-valued on all three return paths). -/
def distancesConcordent (g : Reseau) (fuel o d : Nat) : Bool :=
  match dijkstra g o d, bellmanFord g o d, meilleurPlusCourtChemin g o d fuel with
  | .ok r1, .ok r2, .ok (some r3) => r1.1 == r2.1 && r1.1 == r3.1
  | _, _, _ => false

/-- A nonempty vertex sequence each consecutive pair of which is an arc of
the network. -/
def cheminValide (g : Reseau) : List Nat → Bool
  | [] => false
  | [v] => sommetExiste g v
  | v :: w :: reste =>
    (lookupA ((lookupA g.m_arcs v).getD []) w).isSome && cheminValide g (w :: reste)

/-- Total cost of a vertex sequence, each arc weight read back as the `int`
that `getCoutArc` would return. -/
def coutChemin (g : Reseau) : List Nat → Int
  | [] => 0
  | [_] => 0
  | v :: w :: reste =>
    toI32 ((lookupA ((lookupA g.m_arcs v).getD []) w).getD (0, 0)).1 + coutChemin g (w :: reste)

/-! ## Helper lemmas about the heap-variant reconstruction loop -/

/-- The final state of the heap main loop, with a junk default on the error
branch (which is never taken when both vertices exist). -/
def etatHeapOu (g : Reseau) (numOrigine numDest : Nat) : EtatHeap :=
  match meilleurPCCEtat g numOrigine numDest with
  | .ok s => s
  | .error _ =>
    { arcs := [], tas := none, actif := fun _ => false, pred := fun _ => 0,
      longueur := 0, fini := true }

mutual

/-- Every key in the tree is at most `b`. -/
def clesN (b : Nat) : Noeud → Prop
  | .mk d _ e => d ≤ b ∧ clesF b e

/-- Every key in the forest is at most `b`. -/
def clesF (b : Nat) : Foret → Prop
  | .nil => True
  | .cons n r => clesN b n ∧ clesF b r

end

/-- Every key in the (possibly empty) heap is at most `b`. -/
def clesOpt (b : Nat) : Option Noeud → Prop
  | none => True
  | some n => clesN b n

/-- Destinations of the arcs leaving `v`. -/
def successeurs (g : Reseau) (v : Nat) : List Nat :=
  ((lookupA g.m_arcs v).getD []).map (·.1)

/-- Vertices within `n` arc steps of `o`. -/
def atteintN (g : Reseau) (o : Nat) : Nat → List Nat
  | 0 => [o]
  | n + 1 => (atteintN g o n).flatMap (fun u => u :: successeurs g u)

/-- `v` is reachable from `o` along arcs of `g`. -/
def Atteignable (g : Reseau) (o v : Nat) : Prop := ∃ n, v ∈ atteintN g o n

/-- The Bellman-Ford reachability invariant: an existing vertex carries a
non-sentinel distance or a set predecessor only if it is reachable. -/
def InvarBellman (g : Reseau) (o : Nat) (dist pred : Nat → Int) : Prop :=
  ∀ v, sommetExiste g v = true →
    (dist v ≠ maxPoids → Atteignable g o v) ∧ (pred v ≠ -1 → Atteignable g o v)

/-- The trivial-origin invariant of Bellman-Ford: the origin keeps distance
0 and predecessor -1, and all distances stay non-negative. -/
def InvarTrivial (o : Nat) (dist pred : Nat → Int) : Prop :=
  dist o = 0 ∧ pred o = -1 ∧ ∀ v, 0 ≤ dist v

/-- The forest obtained by prepending singleton 9999-nodes for each listed
vertex (the children of the initial heap root). -/
def empile (l : List Nat) (e : Foret) : Foret :=
  l.foldl (fun acc v => .cons (.mk 9999 v .nil) acc) e

/-- The network object after a `dijkstra` call: the possibly mutated
`m_arcs` (through `operator[]`), with the untouched counters. -/
def reseauApresDijkstra (g : Reseau) (numOrigine numDest : Nat) : Reseau :=
  match dijkstraComplet g numOrigine numDest with
  | .ok r => { g with m_arcs := r.2.2 }
  | .error _ => g

/-- The network object after a `meilleurPlusCourtChemin` call. -/
def reseauApresHeap (g : Reseau) (numOrigine numDest : Nat) : Reseau :=
  match meilleurPCCEtat g numOrigine numDest with
  | .ok s => { g with m_arcs := s.arcs }
  | .error _ => g

mutual

/-- Number of nodes of a tree. -/
def tailleN : Noeud → Nat
  | .mk _ _ e => 1 + tailleF e

/-- Number of nodes of a forest. -/
def tailleF : Foret → Nat
  | .nil => 0
  | .cons n r => tailleN n + tailleF r

end

/-- Number of nodes of a possibly empty heap. -/
def tailleOpt : Option Noeud → Nat
  | none => 0
  | some n => tailleN n

mutual

/-- Every payload of the tree satisfies `P`. -/
def sommetsN (P : Nat → Prop) : Noeud → Prop
  | .mk _ s e => P s ∧ sommetsF P e

/-- Every payload of the forest satisfies `P`. -/
def sommetsF (P : Nat → Prop) : Foret → Prop
  | .nil => True
  | .cons n r => sommetsN P n ∧ sommetsF P r

end

/-- Every payload of a possibly empty heap satisfies `P`. -/
def sommetsOpt (P : Nat → Prop) : Option Noeud → Prop
  | none => True
  | some n => sommetsN P n

/-- The dense-Dijkstra predecessor invariant: a set predecessor of a key
vertex is an already-extracted key vertex of strictly smaller rank. -/
def InvMarche (K ensQ : List Nat) (pred : Nat → Int) (phi : Nat → Nat) : Prop :=
  ∀ v ∈ K, pred v ≠ -1 →
    toU32 (pred v) ∈ K ∧ pred v = toI32 (toU32 (pred v)) ∧
    toU32 (pred v) ∉ ensQ ∧ phi (toU32 (pred v)) < phi v

/-- Strictly positive arc weights that fit in a C++ `int`. -/
def PoidsPositifs (g : Reseau) : Prop :=
  ∀ p ∈ g.m_arcs, ∀ q ∈ p.2, 1 ≤ q.2.1 ∧ q.2.1 < 2147483648

instance (g : Reseau) : Decidable (PoidsPositifs g) := by
  rw [PoidsPositifs]
  infer_instance

/-- The Bellman-Ford termination invariant under strictly positive weights:
distances stay in the `int` range and strictly decrease along predecessors. -/
def InvPos (K : List Nat) (dist pred : Nat → Int) : Prop :=
  (∀ v, 0 ≤ dist v ∧ dist v ≤ maxPoids) ∧
  (∀ v ∈ K, pred v ≠ -1 →
    toU32 (pred v) ∈ K ∧ pred v = toI32 (toU32 (pred v)) ∧
    dist (toU32 (pred v)) < dist v)

lemma mpcc_par_etat (g : Reseau) (numOrigine numDest fuel : Nat) (s : EtatHeap)
    (hs : meilleurPCCEtat g numOrigine numDest = .ok s) :
    meilleurPlusCourtChemin g numOrigine numDest fuel =
      (if s.pred numDest = 0 then .ok (some (toI32 s.longueur, []))
       else
         match remonterHeap s.pred numOrigine fuel numDest with
         | none => .ok none
         | some l => .ok (some (toI32 s.longueur, numOrigine :: l))) := by
  unfold meilleurPlusCourtChemin
  rw [hs]

/-- Once the reconstruction walk reaches a fixed point of the predecessor
map different from the origin, it runs forever. -/
lemma remonterHeap_absorbe (pred : Nat → Nat) (numOrigine z : Nat)
    (hz : pred z = z) (hno : z ≠ numOrigine) :
    ∀ fuel, remonterHeap pred numOrigine fuel z = none := by
  intro fuel
  induction fuel with
  | zero => rfl
  | succ n ih => rw [remonterHeap]; simp [hno, hz, ih]

lemma remonterHeap_etape (pred : Nat → Nat) (numOrigine c : Nat)
    (hc : c ≠ numOrigine) (fuel : Nat)
    (h : remonterHeap pred numOrigine fuel (pred c) = none) :
    remonterHeap pred numOrigine (fuel + 1) c = none := by
  rw [remonterHeap]; simp [hc, h]

/-- The reconstruction of the heap variant diverges on `gIsole 1 5`. -/
lemma gIsole_diverge : heapDiverge gIsole 1 5 := by
  intro fuel
  have hs : meilleurPCCEtat gIsole 1 5 = .ok (etatHeapOu gIsole 1 5) := rfl
  rw [mpcc_par_etat gIsole 1 5 fuel _ hs]
  have h5 : (etatHeapOu gIsole 1 5).pred 5 = 9999 := by decide
  have h9 : (etatHeapOu gIsole 1 5).pred 9999 = 0 := by decide
  have h0 : (etatHeapOu gIsole 1 5).pred 0 = 0 := by decide
  have habs := remonterHeap_absorbe (etatHeapOu gIsole 1 5).pred 1 0 h0 (by decide)
  have hmarche : ∀ f, remonterHeap (etatHeapOu gIsole 1 5).pred 1 f 5 = none := by
    intro f
    match f with
    | 0 => rfl
    | 1 => rw [remonterHeap]; simp [h5]; rfl
    | n + 2 =>
      apply remonterHeap_etape _ _ _ (by decide)
      rw [h5]
      apply remonterHeap_etape _ _ _ (by decide)
      rw [h9]
      exact habs n
  rw [h5]
  simp [hmarche fuel]

/-- The reconstruction of the heap variant diverges on `gDix 1 2`: the
relaxation `0 + 10000 < 9999` fails, so the predecessor of vertex 2 keeps
its initial value 9999 and the walk never reaches the origin. -/
lemma gDix_diverge : heapDiverge gDix 1 2 := by
  intro fuel
  have hs : meilleurPCCEtat gDix 1 2 = .ok (etatHeapOu gDix 1 2) := rfl
  rw [mpcc_par_etat gDix 1 2 fuel _ hs]
  have h2 : (etatHeapOu gDix 1 2).pred 2 = 9999 := by decide
  have h9 : (etatHeapOu gDix 1 2).pred 9999 = 0 := by decide
  have h0 : (etatHeapOu gDix 1 2).pred 0 = 0 := by decide
  have habs := remonterHeap_absorbe (etatHeapOu gDix 1 2).pred 1 0 h0 (by decide)
  have hmarche : ∀ f, remonterHeap (etatHeapOu gDix 1 2).pred 1 f 2 = none := by
    intro f
    match f with
    | 0 => rfl
    | 1 => rw [remonterHeap]; simp [h2]; rfl
    | n + 2 =>
      apply remonterHeap_etape _ _ _ (by decide)
      rw [h2]
      apply remonterHeap_etape _ _ _ (by decide)
      rw [h9]
      exact habs n
  rw [h2]
  simp [hmarche fuel]

/-- The reconstruction of the heap variant diverges on `gDeux 1 2`. -/
lemma gDeux_diverge : heapDiverge gDeux 1 2 := by
  intro fuel
  have hs : meilleurPCCEtat gDeux 1 2 = .ok (etatHeapOu gDeux 1 2) := rfl
  rw [mpcc_par_etat gDeux 1 2 fuel _ hs]
  have h2 : (etatHeapOu gDeux 1 2).pred 2 = 9999 := by decide
  have h9 : (etatHeapOu gDeux 1 2).pred 9999 = 0 := by decide
  have h0 : (etatHeapOu gDeux 1 2).pred 0 = 0 := by decide
  have habs := remonterHeap_absorbe (etatHeapOu gDeux 1 2).pred 1 0 h0 (by decide)
  have hmarche : ∀ f, remonterHeap (etatHeapOu gDeux 1 2).pred 1 f 2 = none := by
    intro f
    match f with
    | 0 => rfl
    | 1 => rw [remonterHeap]; simp [h2]; rfl
    | n + 2 =>
      apply remonterHeap_etape _ _ _ (by decide)
      rw [h2]
      apply remonterHeap_etape _ _ _ (by decide)
      rw [h9]
      exact habs n
  rw [h2]
  simp [hmarche fuel]

/-! ## Claim theorems (concrete claims) -/

/-- Claim C1, counterexample: on the well-formed network `gDix` with the
single non-negative arc (1→2, w=10000), `dijkstra` and `bellmanFord` both
return distance 10000 while the heap-accelerated variant computes the
distance 9999 (its hard-coded initial key) and then never even returns,
because the rejected relaxation left the predecessor of the destination
unset; the three operations therefore do not return identical distances. -/
theorem C1_contre_exemple :
    gDix.WF ∧
    dijkstra gDix 1 2 = .ok (10000, some [1, 2]) ∧
    bellmanFord gDix 1 2 = .ok (10000, some [1, 2]) ∧
    heapLongueur gDix 1 2 = .ok 9999 ∧
    heapDiverge gDix 1 2 :=
  ⟨by decide, by decide, by decide, by decide, gDix_diverge⟩

/-- Claim C1, amended: the three path operations return identical distances
on pairs whose destination is reachable and whose shortest distance stays
below the hard-coded heap key 9999 — verified here exhaustively for every
such pair of the reference network of the spec (for larger distances the
heap variant caps the result at 9999, and for unreachable destinations it
does not return at all). -/
theorem C1_amende :
    ([(1, 1), (2, 2), (3, 3), (4, 4), (1, 2), (1, 3), (1, 4), (2, 3), (2, 4), (3, 4)].all
      (fun p => distancesConcordent gRef 10 p.1 p.2)) = true := by
  decide

/-- Claim C2, counterexample: on the spec scenario itself (vertex 5 with no
incident arcs), the heap-accelerated operation computes the distance 9999 —
not the maximum representable value 2147483647 — and its path
reconstruction loop never terminates, so it neither returns the sentinel nor
an empty path. -/
theorem C2_contre_exemple :
    heapLongueur gIsole 1 5 = .ok 9999 ∧ heapDiverge gIsole 1 5 :=
  ⟨by decide, gIsole_diverge⟩

/-- Claim C3: `enleverSommet` on a vertex with an outgoing arc erases the
arc from the adjacency structure but forgets to decrement `nbArcs`: on the
two-vertex network with the single arc (1→2), removing vertex 1 leaves
`nombreArcs` at 1 while zero (origin, destination) entries remain. -/
theorem C3_echec :
    enleverSommet gSortant 1 = .ok gSortantApres ∧
    nombreArcs gSortantApres = 1 ∧
    arcsTotal gSortantApres = 0 := by
  decide

/-- Claim C4, counterexample: with positive weights except the single
negative arc (2→3, w=-10) and origin-to-destination pair (1,3), the only
path 1→2→3 uses the negative arc and costs -8, yet `bellmanFord` — whose
`temp >= 0` guard rejects any relaxation producing a negative running
distance — reports the unreachable sentinel and an empty path instead of
the correct shortest distance. -/
theorem C4_contre_exemple :
    bellmanFord gNegRejet 1 3 = .ok (2147483647, some []) ∧
    cheminValide gNegRejet [1, 2, 3] = true ∧
    coutChemin gNegRejet [1, 2, 3] = -8 := by
  decide

/-- Claim C4, amended: `bellmanFord` exploits a negative arc only while
every intermediate running distance stays non-negative (the `temp >= 0`
guard): on the graph with arcs 1→2 (w=15), 1→3 (w=20) and 2→3 (w=-10), it
correctly returns the cheaper path [1,2,3] of cost 5 through the negative
arc rather than the direct arc of cost 20. -/
theorem C4_amende :
    getCoutArc gNegOk 2 3 = .ok (-10) ∧
    coutChemin gNegOk [1, 2, 3] = 5 ∧
    coutChemin gNegOk [1, 3] = 20 ∧
    bellmanFord gNegOk 1 3 = .ok (5, some [1, 2, 3]) := by
  decide

/-- Claim C5: on the reference network, `dijkstra` and `bellmanFord` both
return distance 4 with path [1,2,3,4], but `meilleurPlusCourtChemin`
appends its `chemin_inverse` vector without reversing it and returns the
path [1,4,3,2] (with the correct distance 4) instead of [1,2,3,4]. -/
theorem C5_echec :
    dijkstra gRef 1 4 = .ok (4, some [1, 2, 3, 4]) ∧
    bellmanFord gRef 1 4 = .ok (4, some [1, 2, 3, 4]) ∧
    meilleurPlusCourtChemin gRef 1 4 10 = .ok (some (4, [1, 4, 3, 2])) := by
  decide

/-- Claim C6, counterexample: on the two-vertex arcless network both
vertices exist, yet `meilleurPlusCourtChemin 1 2` neither returns a result
nor raises a precondition violation: its reconstruction loop runs forever
(the predecessor walk is absorbed by the value-initialized entry 0). -/
theorem C6_contre_exemple :
    sommetExiste gDeux 1 = true ∧ sommetExiste gDeux 2 = true ∧
    heapDiverge gDeux 1 2 :=
  ⟨by decide, by decide, gDeux_diverge⟩

/-- Claim C7, counterexample: with origin = destination = 2 on the
reference network, the heap-accelerated operation returns the path [2]
(it pushes the origin before the reconstruction loop), not the empty path
required by the claim; `dijkstra` does return distance 0 with an empty
path. -/
theorem C7_contre_exemple :
    sommetExiste gRef 2 = true ∧
    dijkstra gRef 2 2 = .ok (0, some []) ∧
    meilleurPlusCourtChemin gRef 2 2 10 = .ok (some (0, [2])) := by
  decide

/-- Claim C8: a query referencing a nonexistent vertex or arc raises the
error and never returns a default value — `arcExiste` and the three path
operations throw when a referenced vertex is absent, and `getCoutArc` /
`getTypeArc` throw whenever the arc does not exist. -/
theorem C8_confirme :
    ∀ (g : Reseau) (o d fuel : Nat),
      ((sommetExiste g o = false ∨ sommetExiste g d = false) →
        (∃ e, arcExiste g o d = .error e) ∧
        (∃ e, dijkstra g o d = .error e) ∧
        (∃ e, meilleurPlusCourtChemin g o d fuel = .error e) ∧
        (∃ e, bellmanFord g o d = .error e)) ∧
      (arcExiste g o d ≠ .ok true →
        (∃ e, getCoutArc g o d = .error e) ∧ (∃ e, getTypeArc g o d = .error e)) := by
  intro g o d fuel
  constructor
  · intro h
    refine ⟨⟨"arcExiste: Un des sommets n existe pas!", ?_⟩,
            ⟨"dijkstra: Un des sommets n existe pas!", ?_⟩,
            ⟨"dijkstra: Un des sommets n existe pas!", ?_⟩,
            ⟨"bellmanFord: Un des sommets n existe pas!", ?_⟩⟩ <;>
      rcases h with h | h <;>
        simp [arcExiste, dijkstra, dijkstraComplet, meilleurPlusCourtChemin,
          meilleurPCCEtat, bellmanFord, Except.map, h]
  · intro h
    rcases harc : arcExiste g o d with e | b
    · exact ⟨⟨e, by simp [getCoutArc, harc]⟩, ⟨e, by simp [getTypeArc, harc]⟩⟩
    · cases b
      · exact ⟨⟨"getCoutArc: arc non existant", by simp [getCoutArc, harc]⟩,
               ⟨"getTypeArc: arc non existant", by simp [getTypeArc, harc]⟩⟩
      · exact absurd harc h

/-- Claim C8, witness: vertex 7 does not exist in the reference network, so
`dijkstra 7 1` fails; the arc (1,4) does not exist there, so `getCoutArc`
fails. -/
theorem C8_temoin :
    (∃ e, dijkstra gRef 7 1 = Except.error e) ∧
    (∃ e, getCoutArc gRef 1 4 = Except.error e) :=
  ⟨((C8_confirme gRef 7 1 0).1 (Or.inl (by decide))).2.1,
   ((C8_confirme gRef 1 4 0).2 (by decide)).1⟩

/-! ## Key bounds in the pairing heap (claim C9) -/

lemma clesN_fusionner (b : Nat) (n1 n2 : Noeud) (h1 : clesN b n1) (h2 : clesN b n2) :
    clesN b (fusionner n1 n2) := by
  cases n1 with
  | mk d1 s1 e1 =>
    cases n2 with
    | mk d2 s2 e2 =>
      rw [clesN] at h1 h2
      rw [fusionner]
      by_cases hd : d1 ≤ d2 <;> simp [hd, clesN, clesF] <;>
        exact ⟨by omega, ⟨by omega, by tauto⟩, by tauto⟩

lemma clesN_fusionnerPaires (b : Nat) :
    ∀ (f : Foret) (r : Noeud), clesF b f → fusionnerPaires f = some r → clesN b r
  | .nil, r, _, h => by rw [fusionnerPaires] at h; cases h
  | .cons n .nil, r, hb, h => by
    rw [fusionnerPaires] at h
    cases h
    exact hb.1
  | .cons n1 (.cons n2 reste), r, hb, h => by
    rw [fusionnerPaires] at h
    cases hr : fusionnerPaires reste with
    | none =>
      rw [hr] at h
      cases h
      exact clesN_fusionner b n1 n2 hb.1 hb.2.1
    | some r2 =>
      rw [hr] at h
      cases h
      exact clesN_fusionner b _ r2 (clesN_fusionner b n1 n2 hb.1 hb.2.1)
        (clesN_fusionnerPaires b reste r2 hb.2.2 hr)

lemma clesOpt_ajouterNoeud (b : Nat) (tas : Option Noeud) (d s : Nat)
    (hb : clesOpt b tas) (hd : d ≤ b) : clesOpt b (ajouterNoeud tas d s) := by
  cases tas with
  | none => exact ⟨hd, trivial⟩
  | some n => exact clesN_fusionner b n (.mk d s .nil) hb ⟨hd, trivial⟩

lemma getRacine_borne (b : Nat) (tas : Option Noeud) (hb : clesOpt b tas) :
    (getRacine tas).1 ≤ b := by
  cases tas with
  | none => exact Nat.zero_le b
  | some n => cases n with | mk d s e => exact hb.1

mutual

theorem clesN_chercher (b v k : Nat) :
    ∀ (n : Noeud), clesN b n → chercherN v n = some k → k ≤ b
  | .mk d s e, hb, h => by
    rw [chercherN] at h
    by_cases hs : s = v
    · simp only [hs, if_pos rfl] at h
      cases h
      exact hb.1
    · simp only [if_neg hs] at h
      exact clesF_chercher b v k e hb.2 h

theorem clesF_chercher (b v k : Nat) :
    ∀ (f : Foret), clesF b f → chercherF v f = some k → k ≤ b
  | .cons n r, hb, h => by
    rw [chercherF] at h
    cases hc : chercherN v n with
    | some k2 =>
      rw [hc] at h
      cases h
      exact clesN_chercher b v k n hb.1 hc
    | none =>
      rw [hc] at h
      exact clesF_chercher b v k r hb.2 h

end

mutual

theorem clesN_detacher (b v : Nat) :
    ∀ (n : Noeud) (n2 sub : Noeud), clesN b n → detacherN v n = some (n2, sub) →
      clesN b n2 ∧ clesN b sub
  | .mk d s e, n2, sub, hb, h => by
    rw [detacherN] at h
    cases hd : detacherF v e with
    | some p =>
      rw [hd] at h
      cases h
      have := clesF_detacher b v e p.1 p.2 hb.2 (by rw [hd])
      exact ⟨⟨hb.1, this.1⟩, this.2⟩
    | none => rw [hd] at h; cases h

theorem clesF_detacher (b v : Nat) :
    ∀ (f : Foret) (f2 : Foret) (sub : Noeud), clesF b f → detacherF v f = some (f2, sub) →
      clesF b f2 ∧ clesN b sub
  | .cons n r, f2, sub, hb, h => by
    rw [detacherF] at h
    by_cases hs : n.m_sommet = v
    · simp only [hs, if_pos rfl] at h
      cases h
      exact ⟨hb.2, hb.1⟩
    · simp only [if_neg hs] at h
      cases hd : detacherN v n with
      | some p =>
        rw [hd] at h
        cases h
        have := clesN_detacher b v n p.1 p.2 hb.1 (by rw [hd])
        exact ⟨⟨this.1, hb.2⟩, this.2⟩
      | none =>
        rw [hd] at h
        cases hr : detacherF v r with
        | some p =>
          rw [hr] at h
          cases h
          have := clesF_detacher b v r p.1 p.2 hb.2 (by rw [hr])
          exact ⟨⟨hb.1, this.1⟩, this.2⟩
        | none => rw [hr] at h; cases h

end

lemma clesOpt_diminuer (b : Nat) (tas : Option Noeud) (v nouvelle : Nat)
    (hb : clesOpt b tas) (hn : nouvelle ≤ b) : clesOpt b (diminuerDistance tas v nouvelle) := by
  cases tas with
  | none => trivial
  | some n =>
    cases n with
    | mk d s e =>
      rw [diminuerDistance]
      by_cases hs : s = v
      · simp only [hs, if_pos rfl]
        exact ⟨hn, hb.2⟩
      · simp only [if_neg hs]
        cases hd : detacherN v (.mk d s e) with
        | some p =>
          cases p with
          | mk reste sub =>
            cases sub with
            | mk dv sv ev =>
              have h2 := clesN_detacher b v _ reste (.mk dv sv ev) hb hd
              exact clesN_fusionner b reste (.mk nouvelle sv ev) h2.1 ⟨hn, h2.2.2⟩
        | none => exact hb

lemma clesOpt_supprimer (b : Nat) (tas : Option Noeud) (hb : clesOpt b tas) :
    clesOpt b (supprimerRacine tas) := by
  cases tas with
  | none => trivial
  | some n =>
    cases n with
    | mk d s e =>
      rw [supprimerRacine]
      cases hf : fusionnerPaires e with
      | none => trivial
      | some r => exact clesN_fusionnerPaires b e r hb.2 hf

lemma clesOpt_tasInitial (cles : List Nat) : clesOpt 9999 (tasInitial cles) := by
  have gen : ∀ (l : List Nat) (tas : Option Noeud), clesOpt 9999 tas →
      clesOpt 9999 (l.foldl (fun t v => ajouterNoeud t 9999 v) tas) := by
    intro l
    induction l with
    | nil => intro tas h; exact h
    | cons v reste ih =>
      intro tas h
      exact ih _ (clesOpt_ajouterNoeud 9999 tas 9999 v h (le_refl _))
  exact gen cles none trivial

lemma clesOpt_relaxerHeap (actif : Nat → Bool) (distU vU : Nat) :
    ∀ (adj : List (Nat × Nat × Nat)) (tas : Option Noeud) (pred : Nat → Nat),
      clesOpt 9999 tas → clesOpt 9999 (relaxerHeap actif distU vU adj tas pred).1
  | [], tas, pred, hb => hb
  | (voisin, poids, typ) :: reste, tas, pred, hb => by
    rw [relaxerHeap]
    by_cases ha : actif voisin
    · simp only [ha, if_pos rfl]
      by_cases hlt : (distU + poids) % 4294967296 < (tas.bind (chercherN voisin)).getD 0
      · simp only [if_pos hlt]
        apply clesOpt_relaxerHeap actif distU vU reste _ _
        apply clesOpt_diminuer _ _ _ _ hb
        cases htas : tas with
        | none => rw [htas, Option.none_bind, Option.getD_none] at hlt; omega
        | some n =>
          rw [htas, Option.some_bind] at hlt
          cases hc : chercherN voisin n with
          | none => rw [hc, Option.getD_none] at hlt; omega
          | some k =>
            rw [hc, Option.getD_some] at hlt
            have hk : k ≤ 9999 :=
              clesN_chercher 9999 voisin k n (by rw [htas] at hb; exact hb) hc
            omega
      · simp only [if_neg hlt]
        exact clesOpt_relaxerHeap actif distU vU reste tas pred hb
    · simp only [if_neg ha]
      exact clesOpt_relaxerHeap actif distU vU reste tas pred hb

lemma iterHeap_tas (numDest : Nat) (s : EtatHeap) :
    (iterHeap numDest s).tas =
      supprimerRacine (relaxerHeap s.actif (getRacine s.tas).1 (getRacine s.tas).2
        (accesArcs s.arcs (getRacine s.tas).2).2 s.tas s.pred).1 := rfl

lemma iterHeap_longueur (numDest : Nat) (s : EtatHeap) :
    (iterHeap numDest s).longueur =
      if (getRacine s.tas).2 = numDest then
        ((relaxerHeap s.actif (getRacine s.tas).1 (getRacine s.tas).2
            (accesArcs s.arcs (getRacine s.tas).2).2 s.tas s.pred).1.bind
          (chercherN (getRacine s.tas).2)).getD (getRacine s.tas).1
      else s.longueur := by
  by_cases hd : (getRacine s.tas).2 = numDest <;> simp [iterHeap, hd]

/-- Invariant of the heap main loop: all keys and the recorded distance stay
at most 9999. -/
lemma iterHeap_borne (numDest : Nat) (s : EtatHeap)
    (hb : clesOpt 9999 s.tas) (hl : s.longueur ≤ 9999) :
    clesOpt 9999 (iterHeap numDest s).tas ∧ (iterHeap numDest s).longueur ≤ 9999 := by
  have htp := clesOpt_relaxerHeap s.actif (getRacine s.tas).1 (getRacine s.tas).2
    (accesArcs s.arcs (getRacine s.tas).2).2 s.tas s.pred hb
  constructor
  · rw [iterHeap_tas]
    exact clesOpt_supprimer 9999 _ htp
  · rw [iterHeap_longueur]
    by_cases hd : (getRacine s.tas).2 = numDest
    · rw [if_pos hd]
      cases hfst : (relaxerHeap s.actif (getRacine s.tas).1 (getRacine s.tas).2
          (accesArcs s.arcs (getRacine s.tas).2).2 s.tas s.pred).1 with
      | none =>
        rw [Option.none_bind, Option.getD_none]
        exact getRacine_borne 9999 s.tas hb
      | some n =>
        rw [Option.some_bind]
        cases hc : chercherN (getRacine s.tas).2 n with
        | none =>
          rw [Option.getD_none]
          exact getRacine_borne 9999 s.tas hb
        | some k =>
          rw [Option.getD_some]
          exact clesN_chercher 9999 _ k n (by rw [hfst] at htp; exact htp) hc
    · rw [if_neg hd]
      exact hl

lemma boucleHeap_borne (numDest : Nat) :
    ∀ (n : Nat) (s : EtatHeap), clesOpt 9999 s.tas → s.longueur ≤ 9999 →
      (boucleHeap numDest n s).longueur ≤ 9999
  | 0, s, _, hl => hl
  | n + 1, s, hb, hl => by
    rw [boucleHeap]
    by_cases hf : s.fini
    · simp only [hf, if_pos rfl]; exact hl
    · simp only [if_neg hf]
      have h := iterHeap_borne numDest s hb hl
      exact boucleHeap_borne numDest n _ h.1 h.2

lemma meilleurPCCEtat_borne (g : Reseau) (o d : Nat) (s : EtatHeap)
    (hs : meilleurPCCEtat g o d = .ok s) : s.longueur ≤ 9999 := by
  rw [meilleurPCCEtat] at hs
  by_cases hg : (!sommetExiste g o || !sommetExiste g d) = true
  · rw [if_pos hg] at hs; cases hs
  · rw [if_neg hg] at hs
    cases hs
    apply boucleHeap_borne
    · exact clesOpt_diminuer 9999 _ o 0 (clesOpt_tasInitial _) (by omega)
    · exact Nat.zero_le _

lemma toI32_petit (n : Nat) (h : n ≤ 9999) : toI32 n = (n : Int) := by
  rw [toI32]
  rw [Nat.mod_eq_of_lt (by omega)]
  rw [if_pos (by omega)]

/-- Claim C9: whenever the heap-accelerated operation returns, the distance
it returns is at most 9999 (the hard-coded initial heap key), whatever the
network and the actual shortest-path length. -/
theorem C9_confirme :
    ∀ (g : Reseau) (o d fuel : Nat) (r : Int × List Nat),
      meilleurPlusCourtChemin g o d fuel = .ok (some r) → r.1 ≤ 9999 := by
  intro g o d fuel r h
  unfold meilleurPlusCourtChemin at h
  cases hs : meilleurPCCEtat g o d with
  | error e => rw [hs] at h; cases h
  | ok s =>
    rw [hs] at h
    dsimp only at h
    have hl : s.longueur ≤ 9999 := meilleurPCCEtat_borne g o d s hs
    have hval : toI32 s.longueur ≤ 9999 := by
      rw [toI32_petit s.longueur hl]; exact_mod_cast hl
    by_cases hp : s.pred d = 0
    · rw [if_pos hp] at h
      cases h
      exact hval
    · rw [if_neg hp] at h
      cases hrem : remonterHeap s.pred o fuel d with
      | none => rw [hrem] at h; cases h
      | some l =>
        rw [hrem] at h
        cases h
        exact hval

/-- Claim C9, witness: on the reference network the heap operation returns
distance 4, and the theorem instantiates to 4 ≤ 9999. -/
theorem C9_temoin :
    meilleurPlusCourtChemin gRef 1 4 10 = .ok (some (4, [1, 4, 3, 2])) ∧
      ((4 : Int), [1, 4, 3, 2]).1 ≤ 9999 :=
  ⟨by decide, C9_confirme gRef 1 4 10 (4, [1, 4, 3, 2]) (by decide)⟩

/-! ## Reachability and the Bellman-Ford unreachability invariant (claim C2) -/

lemma atteignable_refl (g : Reseau) (o : Nat) : Atteignable g o o :=
  ⟨0, by simp [atteintN]⟩

lemma atteignable_pas (g : Reseau) (o u w : Nat) (hu : Atteignable g o u)
    (hw : w ∈ successeurs g u) : Atteignable g o w := by
  obtain ⟨n, hn⟩ := hu
  exact ⟨n + 1, by rw [atteintN]; exact List.mem_flatMap.2 ⟨u, hn, by simp [hw]⟩⟩

lemma lookupA_de_mem {α : Type} :
    ∀ (l : List (Nat × α)), l.Pairwise (fun a b => a.1 < b.1) →
      ∀ p ∈ l, lookupA l p.1 = some p.2
  | [], _, p, hp => by cases hp
  | (k, v) :: reste, hpw, p, hp => by
    rcases List.mem_cons.1 hp with h | h
    · subst h
      simp [lookupA]
    · have hk : ¬(k = p.1) := by
        have := (List.pairwise_cons.1 hpw).1 p h
        omega
      rw [lookupA, if_neg hk]
      exact lookupA_de_mem reste (List.pairwise_cons.1 hpw).2 p h

lemma relaxerBellman_inv (g : Reseau) (o nc : Nat)
    (hnc : Atteignable g o nc) :
    ∀ (adj : List (Nat × Nat × Nat)) (dist pred : Nat → Int) (instable : Bool),
      (∀ q ∈ adj, q.1 ∈ successeurs g nc) →
      InvarBellman g o dist pred →
      InvarBellman g o (relaxerBellman nc adj dist pred instable).1
        (relaxerBellman nc adj dist pred instable).2.1
  | [], dist, pred, instable, _, hinv => hinv
  | (voisin, poids, typ) :: reste, dist, pred, instable, hadj, hinv => by
    rw [relaxerBellman]
    by_cases hcond : uadd32 poids (dist nc) < dist voisin ∧ 0 ≤ uadd32 poids (dist nc)
    · simp only [if_pos hcond]
      apply relaxerBellman_inv g o nc hnc reste _ _ true
        (fun q hq => hadj q (List.mem_cons_of_mem _ hq))
      intro v hv
      have hva : Atteignable g o voisin :=
        atteignable_pas g o nc voisin hnc (hadj (voisin, poids, typ) (by simp) )
      by_cases hveq : v = voisin
      · subst hveq
        exact ⟨fun _ => hva, fun _ => hva⟩
      · rw [maj, maj]
        simp only [if_neg hveq]
        exact hinv v hv
    · simp only [if_neg hcond]
      exact relaxerBellman_inv g o nc hnc reste dist pred instable
        (fun q hq => hadj q (List.mem_cons_of_mem _ hq)) hinv

lemma passeBellman_inv (g : Reseau) (o : Nat) :
    ∀ (liste : List (Nat × ListeArcs)) (dist pred : Nat → Int) (instable : Bool),
      (∀ p ∈ liste, lookupA g.m_arcs p.1 = some p.2) →
      InvarBellman g o dist pred →
      InvarBellman g o (passeBellman liste dist pred instable).1
        (passeBellman liste dist pred instable).2.1
  | [], dist, pred, instable, _, hinv => hinv
  | (nc, adj) :: reste, dist, pred, instable, hmem, hinv => by
    rw [passeBellman]
    by_cases hd : dist nc < maxPoids
    · simp only [if_pos hd]
      apply passeBellman_inv g o reste _ _ _
        (fun p hp => hmem p (List.mem_cons_of_mem _ hp))
      have hex : sommetExiste g nc = true := by
        rw [sommetExiste, hmem (nc, adj) (by simp)]
        rfl
      have hnc : Atteignable g o nc :=
        (hinv nc hex).1 (by intro h; rw [h] at hd; exact absurd hd (lt_irrefl _))
      apply relaxerBellman_inv g o nc hnc adj dist pred instable _ hinv
      intro q hq
      rw [successeurs, hmem (nc, adj) (by simp)]
      exact List.mem_map.2 ⟨q, hq, rfl⟩
    · simp only [if_neg hd]
      exact passeBellman_inv g o reste dist pred instable
        (fun p hp => hmem p (List.mem_cons_of_mem _ hp)) hinv

lemma bouclesBellman_inv (g : Reseau) (o : Nat)
    (hmem : ∀ p ∈ g.m_arcs, lookupA g.m_arcs p.1 = some p.2) :
    ∀ (n : Nat) (dist pred : Nat → Int),
      InvarBellman g o dist pred →
      InvarBellman g o (bouclesBellman g.m_arcs n dist pred).1
        (bouclesBellman g.m_arcs n dist pred).2
  | 0, dist, pred, hinv => hinv
  | n + 1, dist, pred, hinv => by
    rw [bouclesBellman]
    have hp := passeBellman_inv g o g.m_arcs dist pred false hmem hinv
    by_cases hs : (passeBellman g.m_arcs dist pred false).2.2 = true
    · simp only [if_pos hs]
      exact bouclesBellman_inv g o hmem n _ _ hp
    · simp only [if_neg hs]
      exact hp

/-- Claim C2, amended: `bellmanFord` returns the maximum representable
distance and an empty path (raising no error) for every unreachable
destination of a well-formed network; `dijkstra` does the same on the spec
scenario of the isolated vertex 5; the heap variant instead computes the
distance 9999 and never returns. -/
theorem C2_amende :
    (∀ (g : Reseau) (o d : Nat), g.WF → sommetExiste g o = true →
      sommetExiste g d = true → ¬ Atteignable g o d →
      bellmanFord g o d = .ok (maxPoids, some [])) ∧
    dijkstra gIsole 1 5 = .ok (maxPoids, some []) ∧
    heapDiverge gIsole 1 5 := by
  refine ⟨?_, by decide, gIsole_diverge⟩
  intro g o d hwf ho hd hatt
  have hmem : ∀ p ∈ g.m_arcs, lookupA g.m_arcs p.1 = some p.2 :=
    lookupA_de_mem g.m_arcs hwf.1
  have hinv0 : InvarBellman g o
      (maj (fun v => if (lookupA g.m_arcs v).isSome then maxPoids else 0) o 0)
      (fun v => if (lookupA g.m_arcs v).isSome then (-1 : Int) else 0) := by
    intro v hv
    rw [sommetExiste] at hv
    constructor
    · intro hdist
      by_cases hvo : v = o
      · rw [hvo]; exact atteignable_refl g o
      · simp [maj, hvo, hv] at hdist
    · intro hpred
      simp [hv] at hpred
  have hfin := bouclesBellman_inv g o hmem (g.nbSommets - 1).toNat _ _ hinv0
  rw [bellmanFord]
  rw [ho, hd]
  simp only [Bool.not_true, Bool.false_or, Bool.or_self, if_neg (by simp : ¬(false = true))]
  have hdd : (bouclesBellman g.m_arcs (g.nbSommets - 1).toNat
      (maj (fun v => if (lookupA g.m_arcs v).isSome then maxPoids else 0) o 0)
      (fun v => if (lookupA g.m_arcs v).isSome then (-1 : Int) else 0)).1 d = maxPoids := by
    by_contra hne
    exact hatt ((hfin d hd).1 hne)
  have hpd : (bouclesBellman g.m_arcs (g.nbSommets - 1).toNat
      (maj (fun v => if (lookupA g.m_arcs v).isSome then maxPoids else 0) o 0)
      (fun v => if (lookupA g.m_arcs v).isSome then (-1 : Int) else 0)).2 d = -1 := by
    by_contra hne
    exact hatt ((hfin d hd).2 hne)
  rw [hdd, hpd]
  simp

/-- Claim C2, witness: vertex 5 is unreachable from vertex 1 in `gIsole`,
and `bellmanFord` indeed returns the sentinel with an empty path there. -/
theorem C2_temoin : bellmanFord gIsole 1 5 = .ok (maxPoids, some []) :=
  C2_amende.1 gIsole 1 5 (by decide) (by decide) (by decide)
    (by
      intro h
      obtain ⟨n, hn⟩ := h
      have hconst : ∀ m, atteintN gIsole 1 m = [1] := by
        intro m
        induction m with
        | zero => rfl
        | succ k ih => rw [atteintN, ih]; rfl
      rw [hconst n] at hn
      simp at hn)

/-! ## The origin = destination case (claim C7) -/

lemma mem_cles_de_lookup {α : Type} :
    ∀ (l : List (Nat × α)) (k : Nat), (lookupA l k).isSome = true → k ∈ l.map (·.1)
  | [], k, h => by simp [lookupA] at h
  | (k2, v) :: reste, k, h => by
    rw [lookupA] at h
    by_cases hk : k2 = k
    · simp [hk]
    · rw [if_neg hk] at h
      simp only [List.map_cons, List.mem_cons]
      exact Or.inr (mem_cles_de_lookup reste k h)

lemma lookup_de_mem_cles {α : Type} :
    ∀ (l : List (Nat × α)) (k : Nat), k ∈ l.map (·.1) → (lookupA l k).isSome = true
  | [], k, h => by simp at h
  | (k2, v) :: reste, k, h => by
    rw [lookupA]
    by_cases hk : k2 = k
    · rw [if_pos hk]; rfl
    · rw [if_neg hk]
      apply lookup_de_mem_cles reste k
      simp only [List.map_cons, List.mem_cons] at h
      rcases h with h | h
      · exact absurd h.symm hk
      · exact h

/-- The linear minimum scan returns `o` when `o` has the strictly smallest
distance among the scanned set. -/
lemma foldl_min_gauche (dist : Nat → Int) (o : Nat) :
    ∀ (l : List Nat) (acc : Nat),
      (∀ q ∈ l, q ≠ o → dist o < dist q) →
      (acc = o ∨ dist o < dist acc) →
      (o ∈ l ∨ acc = o) →
      l.foldl (fun m x => if dist x < dist m then x else m) acc = o
  | [], acc, _, _, hmem => by
    rw [List.foldl_nil]
    rcases hmem with h | h
    · cases h
    · exact h
  | x :: reste, acc, hl, hacc, hmem => by
    rw [List.foldl_cons]
    refine foldl_min_gauche dist o reste _
      (fun q hq hqo => hl q (List.mem_cons_of_mem _ hq) hqo) ?_ ?_
    · rcases hacc with h | h
      · rw [h]
        by_cases hx : x = o
        · rw [hx, if_neg (lt_irrefl _)]
          exact Or.inl rfl
        · rw [if_neg (not_lt.2 (le_of_lt (hl x (List.mem_cons_self _ _) hx)))]
          exact Or.inl rfl
      · by_cases hx : x = o
        · rw [hx, if_pos h]
          exact Or.inl rfl
        · have hox := hl x (List.mem_cons_self _ _) hx
          by_cases hlt : dist x < dist acc
          · rw [if_pos hlt]; exact Or.inr hox
          · rw [if_neg hlt]; exact Or.inr h
    · rcases hmem with hm | hm
      · rcases List.mem_cons.1 hm with ho2 | ho2
        · rw [← ho2]
          by_cases hlt : dist o < dist acc
          · rw [if_pos hlt]; exact Or.inr rfl
          · rw [if_neg hlt]
            rcases hacc with h | h
            · exact Or.inr h
            · exact absurd h hlt
        · exact Or.inl ho2
      · rw [hm]
        by_cases hx : x = o
        · rw [hx]
          by_cases hlt : dist o < dist o
          · rw [if_pos hlt]; exact Or.inr rfl
          · rw [if_neg hlt]; exact Or.inr rfl
        · rw [if_neg (not_lt.2 (le_of_lt (hl x (List.mem_cons_self _ _) hx)))]
          exact Or.inr rfl

lemma noeudMinDe_unique (ensQ : List Nat) (dist : Nat → Int) (o : Nat)
    (ho : o ∈ ensQ) (hmin : ∀ q ∈ ensQ, q ≠ o → dist o < dist q) :
    noeudMinDe ensQ dist = o := by
  cases ensQ with
  | nil => cases ho
  | cons n reste =>
    rw [noeudMinDe]
    exact foldl_min_gauche dist o (n :: reste) n hmin
      (by
        by_cases hn : n = o
        · exact Or.inl hn
        · exact Or.inr (hmin n (List.mem_cons_self _ _) hn))
      (Or.inl ho)

/-- `dijkstra` with origin = destination: the origin is extracted first and
the loop breaks immediately, returning distance 0 and an empty path. -/
lemma dijkstra_trivial (g : Reseau) (o : Nat) (hwf : g.WF) (ho : sommetExiste g o = true) :
    dijkstra g o o = .ok (0, some []) := by
  have hoc : o ∈ g.m_arcs.map (·.1) := mem_cles_de_lookup g.m_arcs o (by rw [sommetExiste] at ho; exact ho)
  have hlen : g.nbSommets.toNat = g.m_arcs.length := by
    rw [hwf.2.2.2.2]; exact Int.toNat_natCast _
  have hpos : 1 ≤ g.m_arcs.length := by
    cases hm : g.m_arcs with
    | nil => rw [hm] at hoc; cases hoc
    | cons p reste => simp
  obtain ⟨m, hmember⟩ : ∃ m, g.nbSommets.toNat = m + 1 := by
    rw [hlen]
    exact ⟨g.m_arcs.length - 1, by omega⟩
  have hosm : (lookupA g.m_arcs o).isSome = true := by rw [sommetExiste] at ho; exact ho
  have hdisto : maj (fun v => if (lookupA g.m_arcs v).isSome = true then maxPoids else 0) o 0 o
      = 0 := by simp [maj]
  have hmin : noeudMinDe (g.m_arcs.map (·.1))
      (maj (fun v => if (lookupA g.m_arcs v).isSome = true then maxPoids else 0) o 0) = o := by
    apply noeudMinDe_unique _ _ o hoc
    intro q hq hqo
    have hqs := lookup_de_mem_cles g.m_arcs q hq
    have hdq : maj (fun v => if (lookupA g.m_arcs v).isSome = true then maxPoids else 0) o 0 q
        = maxPoids := by simp [maj, hqo, hqs]
    rw [hdisto, hdq]
    decide
  rw [dijkstra, dijkstraComplet, ho]
  simp only [Bool.not_true, Bool.false_or, Bool.or_self]
  rw [if_neg (by simp)]
  rw [hmember]
  rw [boucleDijkstra]
  dsimp only
  rw [hmin, if_pos rfl]
  simp [Except.map, maj, hosm]

lemma relaxerBellman_triv (o nc : Nat) :
    ∀ (adj : List (Nat × Nat × Nat)) (dist pred : Nat → Int) (inst : Bool),
      InvarTrivial o dist pred →
      InvarTrivial o (relaxerBellman nc adj dist pred inst).1
        (relaxerBellman nc adj dist pred inst).2.1
  | [], dist, pred, inst, h => h
  | (voisin, poids, typ) :: reste, dist, pred, inst, h => by
    rw [relaxerBellman]
    by_cases hcond : uadd32 poids (dist nc) < dist voisin ∧ 0 ≤ uadd32 poids (dist nc)
    · simp only [if_pos hcond]
      apply relaxerBellman_triv o nc reste _ _ true
      have hvo : voisin ≠ o := by
        intro he
        rw [he, h.1] at hcond
        omega
      refine ⟨?_, ?_, ?_⟩
      · rw [maj]
        rw [if_neg (Ne.symm hvo)]
        exact h.1
      · rw [maj]
        rw [if_neg (Ne.symm hvo)]
        exact h.2.1
      · intro v
        rw [maj]
        by_cases hv : v = voisin
        · rw [if_pos hv]; exact hcond.2
        · rw [if_neg hv]; exact h.2.2 v
    · simp only [if_neg hcond]
      exact relaxerBellman_triv o nc reste dist pred inst h

lemma passeBellman_triv (o : Nat) :
    ∀ (liste : List (Nat × ListeArcs)) (dist pred : Nat → Int) (inst : Bool),
      InvarTrivial o dist pred →
      InvarTrivial o (passeBellman liste dist pred inst).1
        (passeBellman liste dist pred inst).2.1
  | [], dist, pred, inst, h => h
  | (nc, adj) :: reste, dist, pred, inst, h => by
    rw [passeBellman]
    by_cases hd : dist nc < maxPoids
    · simp only [if_pos hd]
      exact passeBellman_triv o reste _ _ _ (relaxerBellman_triv o nc adj dist pred inst h)
    · simp only [if_neg hd]
      exact passeBellman_triv o reste dist pred inst h

lemma bouclesBellman_triv (o : Nat) (arcs : List (Nat × ListeArcs)) :
    ∀ (n : Nat) (dist pred : Nat → Int),
      InvarTrivial o dist pred →
      InvarTrivial o (bouclesBellman arcs n dist pred).1 (bouclesBellman arcs n dist pred).2
  | 0, dist, pred, h => h
  | n + 1, dist, pred, h => by
    rw [bouclesBellman]
    have hp := passeBellman_triv o arcs dist pred false h
    by_cases hs : (passeBellman arcs dist pred false).2.2 = true
    · simp only [if_pos hs]
      exact bouclesBellman_triv o arcs n _ _ hp
    · simp only [if_neg hs]
      exact ⟨hp.1, hp.2.1, hp.2.2⟩

/-- `bellmanFord` with origin = destination returns distance 0 and an empty
path: the `temp >= 0` guard makes any relaxation into the origin impossible. -/
lemma bellmanFord_trivial (g : Reseau) (o : Nat) (ho : sommetExiste g o = true) :
    bellmanFord g o o = .ok (0, some []) := by
  rw [bellmanFord, ho]
  simp only [Bool.not_true, Bool.false_or, Bool.or_self]
  rw [if_neg (by simp)]
  have hinv0 : InvarTrivial o
      (maj (fun v => if (lookupA g.m_arcs v).isSome then maxPoids else 0) o 0)
      (fun v => if (lookupA g.m_arcs v).isSome then (-1 : Int) else 0) := by
    refine ⟨by simp [maj], ?_, ?_⟩
    · rw [sommetExiste] at ho
      simp [ho]
    · intro v
      rw [maj]
      by_cases hv : v = o
      · rw [if_pos hv]
      · rw [if_neg hv]
        by_cases hs : (lookupA g.m_arcs v).isSome = true <;> simp [hs, maxPoids]
  have hfin := bouclesBellman_triv o g.m_arcs (g.nbSommets - 1).toNat _ _ hinv0
  rw [hfin.1, hfin.2.1]
  simp

lemma tasInitial_forme :
    ∀ (reste : List Nat) (v0 : Nat) (e : Foret),
      reste.foldl (fun tas v => ajouterNoeud tas 9999 v) (some (.mk 9999 v0 e)) =
        some (.mk 9999 v0 (empile reste e))
  | [], v0, e => rfl
  | v :: reste, v0, e => by
    rw [List.foldl_cons]
    have h1 : ajouterNoeud (some (.mk 9999 v0 e)) 9999 v
        = some (.mk 9999 v0 (.cons (.mk 9999 v .nil) e)) := by
      rw [ajouterNoeud, fusionner, if_pos (le_refl _)]
    rw [h1, tasInitial_forme reste v0 _]
    rfl

lemma tasInitial_cons (v0 : Nat) (reste : List Nat) :
    tasInitial (v0 :: reste) = some (.mk 9999 v0 (empile reste .nil)) := by
  rw [tasInitial, List.foldl_cons]
  exact tasInitial_forme reste v0 .nil

lemma detacherF_empile (o : Nat) :
    ∀ (l : List Nat) (e : Foret),
      (o ∈ l ∨ ∃ e2, detacherF o e = some (e2, .mk 9999 o .nil)) →
      ∃ e2, detacherF o (empile l e) = some (e2, .mk 9999 o .nil)
  | [], e, h => by
    rcases h with h | h
    · cases h
    · exact h
  | v :: l, e, h => by
    show ∃ e2, detacherF o (empile l (.cons (.mk 9999 v .nil) e)) = _
    apply detacherF_empile o l
    by_cases hvo : v = o
    · right
      refine ⟨e, ?_⟩
      rw [detacherF]
      rw [if_pos (by rw [Noeud.m_sommet]; exact hvo)]
      rw [hvo]
    · rcases h with h | h
      · rcases List.mem_cons.1 h with h2 | h2
        · exact absurd h2.symm hvo
        · exact Or.inl h2
      · right
        obtain ⟨e2, he2⟩ := h
        refine ⟨.cons (.mk 9999 v .nil) e2, ?_⟩
        rw [detacherF]
        rw [if_neg (by rw [Noeud.m_sommet]; exact hvo)]
        have hdn : detacherN o (.mk 9999 v .nil) = none := by rw [detacherN]; rfl
        rw [hdn, he2]

lemma tas0_racine (cles : List Nat) (o : Nat) (ho : o ∈ cles) :
    ∃ E, diminuerDistance (tasInitial cles) o 0 = some (.mk 0 o E) := by
  cases cles with
  | nil => cases ho
  | cons v0 reste =>
    rw [tasInitial_cons, diminuerDistance]
    by_cases h0 : v0 = o
    · rw [if_pos h0, h0]
      exact ⟨empile reste .nil, rfl⟩
    · rw [if_neg h0]
      have ho2 : o ∈ reste := by
        rcases List.mem_cons.1 ho with h | h
        · exact absurd h.symm h0
        · exact h
      obtain ⟨e2, he2⟩ := detacherF_empile o reste .nil (Or.inl ho2)
      have hdet : detacherN o (.mk 9999 v0 (empile reste .nil))
          = some (.mk 9999 v0 e2, .mk 9999 o .nil) := by
        rw [detacherN, he2]
      rw [hdet]
      dsimp only
      refine ⟨.cons (.mk 9999 v0 e2) .nil, ?_⟩
      rw [fusionner, if_neg (by omega)]

lemma diminuer_racine (o k voisin : Nat) (E : Foret) (hvo : voisin ≠ o) :
    ∃ E2, diminuerDistance (some (.mk 0 o E)) voisin k = some (.mk 0 o E2) := by
  rw [diminuerDistance]
  rw [if_neg (Ne.symm hvo)]
  cases hdf : detacherF voisin E with
  | none =>
    have hdet : detacherN voisin (.mk 0 o E) = none := by rw [detacherN, hdf]
    rw [hdet]
    exact ⟨E, rfl⟩
  | some q =>
    obtain ⟨e2, sub⟩ := q
    cases sub with
    | mk dv sv ev =>
      have hdet : detacherN voisin (.mk 0 o E) = some (.mk 0 o e2, .mk dv sv ev) := by
        rw [detacherN, hdf]
      rw [hdet]
      dsimp only
      refine ⟨.cons (.mk k sv ev) e2, ?_⟩
      rw [fusionner, if_pos (Nat.zero_le k)]

lemma relaxerHeap_racine (o : Nat) :
    ∀ (adj : List (Nat × Nat × Nat)) (actif : Nat → Bool) (pred : Nat → Nat) (E : Foret),
      (∃ E2, (relaxerHeap actif 0 o adj (some (.mk 0 o E)) pred).1 = some (.mk 0 o E2)) ∧
      (relaxerHeap actif 0 o adj (some (.mk 0 o E)) pred).2 o = pred o
  | [], actif, pred, E => ⟨⟨E, rfl⟩, rfl⟩
  | (voisin, poids, typ) :: reste, actif, pred, E => by
    rw [relaxerHeap]
    by_cases ha : actif voisin = true
    · rw [if_pos ha]
      by_cases hvo : voisin = o
      · have hch : ((some (.mk 0 o E)).bind (chercherN voisin)).getD 0 = 0 := by
          rw [hvo, Option.some_bind, chercherN, if_pos rfl]
          rfl
        rw [hch, if_neg (Nat.not_lt_zero _)]
        exact relaxerHeap_racine o reste actif pred E
      · by_cases hlt : (0 + poids) % 4294967296
            < ((some (.mk 0 o E)).bind (chercherN voisin)).getD 0
        · rw [if_pos hlt]
          obtain ⟨E1, hE1⟩ := diminuer_racine o ((0 + poids) % 4294967296) voisin E hvo
          rw [hE1]
          have h := relaxerHeap_racine o reste actif (maj pred voisin o) E1
          refine ⟨h.1, ?_⟩
          rw [h.2, maj, if_neg (Ne.symm hvo)]
        · rw [if_neg hlt]
          exact relaxerHeap_racine o reste actif pred E
    · rw [if_neg ha]
      exact relaxerHeap_racine o reste actif pred E

lemma iterHeap_pred (numDest : Nat) (s : EtatHeap) :
    (iterHeap numDest s).pred =
      (relaxerHeap s.actif (getRacine s.tas).1 (getRacine s.tas).2
        (accesArcs s.arcs (getRacine s.tas).2).2 s.tas s.pred).2 := rfl

lemma iterHeap_fini (numDest : Nat) (s : EtatHeap) :
    (iterHeap numDest s).fini =
      if (getRacine s.tas).2 = numDest then true else s.fini := by
  by_cases hd : (getRacine s.tas).2 = numDest <;> simp [iterHeap, hd]

lemma boucleHeap_fini (numDest : Nat) :
    ∀ (n : Nat) (s : EtatHeap), s.fini = true → boucleHeap numDest n s = s
  | 0, s, _ => rfl
  | n + 1, s, h => by rw [boucleHeap, h]; rfl

lemma boucleHeap_triv (o : Nat) (m : Nat) (s : EtatHeap) (E : Foret)
    (htas : s.tas = some (.mk 0 o E)) (hfini : s.fini = false) :
    (boucleHeap o (m + 1) s).longueur = 0 ∧
    (boucleHeap o (m + 1) s).pred o = s.pred o := by
  have hrac : getRacine s.tas = (0, o) := by rw [htas]; rfl
  have hrel := relaxerHeap_racine o (accesArcs s.arcs o).2 s.actif s.pred E
  obtain ⟨⟨E1, hE1⟩, hpred⟩ := hrel
  have hfini1 : (iterHeap o s).fini = true := by
    rw [iterHeap_fini, hrac]
    dsimp only
    rw [if_pos rfl]
  have hlong1 : (iterHeap o s).longueur = 0 := by
    rw [iterHeap_longueur, hrac]
    dsimp only
    rw [if_pos rfl]
    rw [htas, hE1, Option.some_bind, chercherN, if_pos rfl]
    rfl
  have hpred1 : (iterHeap o s).pred o = s.pred o := by
    rw [iterHeap_pred, hrac]
    dsimp only
    rw [htas]
    exact hpred
  rw [boucleHeap, hfini]
  simp only [Bool.false_eq_true, if_false]
  rw [boucleHeap_fini o m (iterHeap o s) hfini1]
  exact ⟨hlong1, hpred1⟩

/-- The heap-accelerated operation with origin = destination returns
distance 0 and the singleton path `[o]`. -/
lemma mpcc_trivial (g : Reseau) (o : Nat) (fuel : Nat) (ho : sommetExiste g o = true)
    (hf : 1 ≤ fuel) :
    meilleurPlusCourtChemin g o o fuel = .ok (some (0, [o])) := by
  have hosm : (lookupA g.m_arcs o).isSome = true := by rw [sommetExiste] at ho; exact ho
  have hoc : o ∈ g.m_arcs.map (·.1) := mem_cles_de_lookup g.m_arcs o hosm
  obtain ⟨E, hE⟩ := tas0_racine (g.m_arcs.map (·.1)) o hoc
  obtain ⟨m, hm⟩ : ∃ m, g.m_arcs.length = m + 1 := by
    cases hml : g.m_arcs with
    | nil => rw [hml] at hoc; cases hoc
    | cons p reste => exact ⟨reste.length, rfl⟩
  have hetat : meilleurPCCEtat g o o =
      .ok (boucleHeap o g.m_arcs.length
        { arcs := g.m_arcs,
          tas := diminuerDistance (tasInitial (g.m_arcs.map (·.1))) o 0,
          actif := fun v => (lookupA g.m_arcs v).isSome,
          pred := fun v => if (lookupA g.m_arcs v).isSome then 9999 else 0,
          longueur := 0, fini := false }) := by
    rw [meilleurPCCEtat]
    rw [if_neg (by rw [ho]; simp)]
  rw [hm] at hetat
  have htriv := boucleHeap_triv o m
    { arcs := g.m_arcs,
      tas := diminuerDistance (tasInitial (g.m_arcs.map (·.1))) o 0,
      actif := fun v => (lookupA g.m_arcs v).isSome,
      pred := fun v => if (lookupA g.m_arcs v).isSome then 9999 else 0,
      longueur := 0, fini := false } E hE rfl
  have hpred9 : (boucleHeap o (m + 1)
      { arcs := g.m_arcs,
        tas := diminuerDistance (tasInitial (g.m_arcs.map (·.1))) o 0,
        actif := fun v => (lookupA g.m_arcs v).isSome,
        pred := fun v => if (lookupA g.m_arcs v).isSome then 9999 else 0,
        longueur := 0, fini := false }).pred o = 9999 := by
    rw [htriv.2]
    dsimp only
    rw [if_pos hosm]
  rw [mpcc_par_etat g o o fuel _ hetat]
  rw [hpred9]
  rw [if_neg (by omega)]
  obtain ⟨f, hfuel⟩ : ∃ f, fuel = f + 1 := ⟨fuel - 1, by omega⟩
  rw [hfuel, remonterHeap, if_pos rfl]
  rw [htriv.1]
  rfl

/-- Claim C7, amended: with origin = destination = v (an existing vertex of
a well-formed network), `dijkstra` and `bellmanFord` return distance 0 with
an empty path, while `meilleurPlusCourtChemin` returns distance 0 with the
singleton path [v]. -/
theorem C7_amende :
    ∀ (g : Reseau) (o fuel : Nat), g.WF → sommetExiste g o = true → 1 ≤ fuel →
      dijkstra g o o = .ok (0, some []) ∧
      bellmanFord g o o = .ok (0, some []) ∧
      meilleurPlusCourtChemin g o o fuel = .ok (some (0, [o])) :=
  fun g o fuel hwf ho hf =>
    ⟨dijkstra_trivial g o hwf ho, bellmanFord_trivial g o ho, mpcc_trivial g o fuel ho hf⟩

/-- Claim C7, witness: instantiated at vertex 3 of the reference network. -/
theorem C7_temoin :
    dijkstra gRef 3 3 = .ok (0, some []) ∧
    bellmanFord gRef 3 3 = .ok (0, some []) ∧
    meilleurPlusCourtChemin gRef 3 3 1 = .ok (some (0, [3])) :=
  C7_amende gRef 3 1 (by decide) (by decide) (by decide)

/-! ## The path operations leave the network unchanged (claim C10) -/

lemma accesArcs_fst {m : List (Nat × ListeArcs)} {k : Nat}
    (h : (lookupA m k).isSome = true) : (accesArcs m k).1 = m := by
  rw [accesArcs]
  cases hl : lookupA m k with
  | some l => rfl
  | none => rw [hl] at h; cases h

lemma foldl_min_mem (dist : Nat → Int) :
    ∀ (l : List Nat) (acc : Nat),
      l.foldl (fun m x => if dist x < dist m then x else m) acc ∈ acc :: l
  | [], acc => List.mem_cons_self _ _
  | x :: reste, acc => by
    rw [List.foldl_cons]
    have h := foldl_min_mem dist reste (if dist x < dist acc then x else acc)
    rcases List.mem_cons.1 h with h | h
    · rw [h]
      by_cases hlt : dist x < dist acc
      · rw [if_pos hlt]
        exact List.mem_cons_of_mem _ (List.mem_cons_self _ _)
      · rw [if_neg hlt]
        exact List.mem_cons_self _ _
    · exact List.mem_cons_of_mem _ (List.mem_cons_of_mem _ h)

lemma noeudMinDe_mem (ensQ : List Nat) (dist : Nat → Int) (hne : ensQ ≠ []) :
    noeudMinDe ensQ dist ∈ ensQ := by
  cases ensQ with
  | nil => exact absurd rfl hne
  | cons n reste =>
    rw [noeudMinDe]
    have h := foldl_min_mem dist (n :: reste) n
    rcases List.mem_cons.1 h with h | h
    · rw [h]; exact List.mem_cons_self _ _
    · exact h

lemma boucleDijkstra_arcs (numDest : Nat) :
    ∀ (n : Nat) (s : EtatDijkstra),
      (∀ q ∈ s.ensQ, (lookupA s.arcs q).isSome = true) →
      n ≤ s.ensQ.length →
      (boucleDijkstra numDest n s).arcs = s.arcs
  | 0, s, _, _ => rfl
  | n + 1, s, hsub, hn => by
    rw [boucleDijkstra]
    have hne : s.ensQ ≠ [] := by
      intro h
      rw [h] at hn
      simp at hn
    have hmem : noeudMinDe s.ensQ s.dist ∈ s.ensQ := noeudMinDe_mem s.ensQ s.dist hne
    by_cases hd : noeudMinDe s.ensQ s.dist = numDest
    · rw [if_pos hd]
    · rw [if_neg hd]
      dsimp only
      have hacc1 : (accesArcs s.arcs (noeudMinDe s.ensQ s.dist)).1 = s.arcs :=
        accesArcs_fst (hsub _ hmem)
      rw [boucleDijkstra_arcs numDest n _ ?_ ?_]
      · exact hacc1
      · intro q hq
        have hq2 : q ∈ s.ensQ.erase (noeudMinDe s.ensQ s.dist) := hq
        show (lookupA (accesArcs s.arcs (noeudMinDe s.ensQ s.dist)).1 q).isSome = true
        rw [hacc1]
        exact hsub q (List.erase_subset _ _ hq2)
      · show n ≤ (s.ensQ.erase (noeudMinDe s.ensQ s.dist)).length
        rw [List.length_erase_of_mem hmem]
        omega

lemma tailleN_fusionner (n1 n2 : Noeud) :
    tailleN (fusionner n1 n2) = tailleN n1 + tailleN n2 := by
  cases n1 with
  | mk d1 s1 e1 =>
    cases n2 with
    | mk d2 s2 e2 =>
      rw [fusionner]
      by_cases hd : d1 ≤ d2 <;> simp [hd, tailleN, tailleF] <;> omega

lemma sommetsN_fusionner (P : Nat → Prop) (n1 n2 : Noeud)
    (h1 : sommetsN P n1) (h2 : sommetsN P n2) : sommetsN P (fusionner n1 n2) := by
  cases n1 with
  | mk d1 s1 e1 =>
    cases n2 with
    | mk d2 s2 e2 =>
      rw [sommetsN] at h1 h2
      rw [fusionner]
      by_cases hd : d1 ≤ d2
      · rw [if_pos hd]
        exact ⟨h1.1, ⟨h2.1, h2.2⟩, h1.2⟩
      · rw [if_neg hd]
        exact ⟨h2.1, ⟨h1.1, h1.2⟩, h2.2⟩

lemma fusionnerPaires_taille :
    ∀ (f : Foret), tailleOpt (fusionnerPaires f) = tailleF f
  | .nil => rfl
  | .cons n .nil => by
    simp [fusionnerPaires, tailleF, tailleOpt]
  | .cons n1 (.cons n2 reste) => by
    rw [fusionnerPaires]
    have ih := fusionnerPaires_taille reste
    cases hr : fusionnerPaires reste with
    | none =>
      rw [hr] at ih
      rw [tailleOpt, tailleN_fusionner, tailleF, tailleF]
      rw [tailleOpt] at ih
      omega
    | some r =>
      rw [hr] at ih
      rw [tailleOpt, tailleN_fusionner, tailleN_fusionner, tailleF, tailleF]
      rw [tailleOpt] at ih
      omega

lemma fusionnerPaires_sommets (P : Nat → Prop) :
    ∀ (f : Foret) (r : Noeud), sommetsF P f → fusionnerPaires f = some r → sommetsN P r
  | .nil, r, _, h => by rw [fusionnerPaires] at h; cases h
  | .cons n .nil, r, hf, h => by
    rw [fusionnerPaires] at h
    cases h
    exact hf.1
  | .cons n1 (.cons n2 reste), r, hf, h => by
    rw [fusionnerPaires] at h
    cases hr : fusionnerPaires reste with
    | none =>
      rw [hr] at h
      cases h
      exact sommetsN_fusionner P n1 n2 hf.1 hf.2.1
    | some r2 =>
      rw [hr] at h
      cases h
      exact sommetsN_fusionner P _ r2 (sommetsN_fusionner P n1 n2 hf.1 hf.2.1)
        (fusionnerPaires_sommets P reste r2 hf.2.2 hr)

mutual

theorem detacherN_taille (v : Nat) :
    ∀ (n : Noeud) (n2 sub : Noeud), detacherN v n = some (n2, sub) →
      tailleN n = tailleN n2 + tailleN sub
  | .mk d s e, n2, sub, h => by
    rw [detacherN] at h
    cases hd : detacherF v e with
    | some p =>
      rw [hd] at h
      cases h
      have := detacherF_taille v e p.1 p.2 hd
      rw [tailleN, tailleN]
      omega
    | none => rw [hd] at h; cases h

theorem detacherF_taille (v : Nat) :
    ∀ (f : Foret) (f2 : Foret) (sub : Noeud), detacherF v f = some (f2, sub) →
      tailleF f = tailleF f2 + tailleN sub
  | .cons n r, f2, sub, h => by
    rw [detacherF] at h
    by_cases hs : n.m_sommet = v
    · rw [if_pos hs] at h
      cases h
      rw [tailleF]
      omega
    · rw [if_neg hs] at h
      cases hd : detacherN v n with
      | some p =>
        rw [hd] at h
        cases h
        have := detacherN_taille v n p.1 p.2 hd
        rw [tailleF, tailleF]
        omega
      | none =>
        rw [hd] at h
        cases hr : detacherF v r with
        | some p =>
          rw [hr] at h
          cases h
          have := detacherF_taille v r p.1 p.2 hr
          rw [tailleF, tailleF]
          omega
        | none => rw [hr] at h; cases h

end

mutual

theorem detacherN_sommets (P : Nat → Prop) (v : Nat) :
    ∀ (n : Noeud) (n2 sub : Noeud), sommetsN P n → detacherN v n = some (n2, sub) →
      sommetsN P n2 ∧ sommetsN P sub
  | .mk d s e, n2, sub, hP, h => by
    rw [detacherN] at h
    cases hd : detacherF v e with
    | some p =>
      rw [hd] at h
      cases h
      have := detacherF_sommets P v e p.1 p.2 hP.2 hd
      exact ⟨⟨hP.1, this.1⟩, this.2⟩
    | none => rw [hd] at h; cases h

theorem detacherF_sommets (P : Nat → Prop) (v : Nat) :
    ∀ (f : Foret) (f2 : Foret) (sub : Noeud), sommetsF P f → detacherF v f = some (f2, sub) →
      sommetsF P f2 ∧ sommetsN P sub
  | .cons n r, f2, sub, hP, h => by
    rw [detacherF] at h
    by_cases hs : n.m_sommet = v
    · rw [if_pos hs] at h
      cases h
      exact ⟨hP.2, hP.1⟩
    · rw [if_neg hs] at h
      cases hd : detacherN v n with
      | some p =>
        rw [hd] at h
        cases h
        have := detacherN_sommets P v n p.1 p.2 hP.1 hd
        exact ⟨⟨this.1, hP.2⟩, this.2⟩
      | none =>
        rw [hd] at h
        cases hr : detacherF v r with
        | some p =>
          rw [hr] at h
          cases h
          have := detacherF_sommets P v r p.1 p.2 hP.2 hr
          exact ⟨⟨hP.1, this.1⟩, this.2⟩
        | none => rw [hr] at h; cases h

end

lemma diminuer_taille (tas : Option Noeud) (v k : Nat) :
    tailleOpt (diminuerDistance tas v k) = tailleOpt tas := by
  cases tas with
  | none => rfl
  | some n =>
    cases n with
    | mk d s e =>
      rw [diminuerDistance]
      by_cases hs : s = v
      · rw [if_pos hs]
        rw [tailleOpt, tailleOpt, tailleN, tailleN]
      · rw [if_neg hs]
        cases hdet : detacherN v (.mk d s e) with
        | none => rfl
        | some p =>
          obtain ⟨reste, sub⟩ := p
          cases sub with
          | mk dv sv ev =>
            dsimp only
            have h2 := detacherN_taille v (.mk d s e) reste (.mk dv sv ev) hdet
            simp only [tailleOpt, tailleN_fusionner, tailleN] at h2 ⊢
            omega

lemma diminuer_sommets (P : Nat → Prop) (tas : Option Noeud) (v k : Nat)
    (hP : sommetsOpt P tas) : sommetsOpt P (diminuerDistance tas v k) := by
  cases tas with
  | none => trivial
  | some n =>
    cases n with
    | mk d s e =>
      rw [diminuerDistance]
      by_cases hs : s = v
      · rw [if_pos hs]
        exact ⟨hP.1, hP.2⟩
      · rw [if_neg hs]
        cases hdet : detacherN v (.mk d s e) with
        | none => exact hP
        | some p =>
          obtain ⟨reste, sub⟩ := p
          cases sub with
          | mk dv sv ev =>
            dsimp only
            have := detacherN_sommets P v (.mk d s e) reste (.mk dv sv ev) hP hdet
            exact sommetsN_fusionner P reste (.mk k sv ev) this.1 ⟨this.2.1, this.2.2⟩

lemma relaxerHeap_taille_sommets (P : Nat → Prop) (actif : Nat → Bool) (distU vU : Nat) :
    ∀ (adj : List (Nat × Nat × Nat)) (tas : Option Noeud) (pred : Nat → Nat),
      sommetsOpt P tas →
      tailleOpt (relaxerHeap actif distU vU adj tas pred).1 = tailleOpt tas ∧
      sommetsOpt P (relaxerHeap actif distU vU adj tas pred).1
  | [], tas, pred, hP => ⟨rfl, hP⟩
  | (voisin, poids, typ) :: reste, tas, pred, hP => by
    rw [relaxerHeap]
    by_cases ha : actif voisin = true
    · rw [if_pos ha]
      by_cases hlt : (distU + poids) % 4294967296 < (tas.bind (chercherN voisin)).getD 0
      · rw [if_pos hlt]
        have h := relaxerHeap_taille_sommets P actif distU vU reste
          (diminuerDistance tas voisin ((distU + poids) % 4294967296))
          (maj pred voisin vU) (diminuer_sommets P tas _ _ hP)
        exact ⟨by rw [h.1, diminuer_taille], h.2⟩
      · rw [if_neg hlt]
        exact relaxerHeap_taille_sommets P actif distU vU reste tas pred hP
    · rw [if_neg ha]
      exact relaxerHeap_taille_sommets P actif distU vU reste tas pred hP

lemma tasInitial_taille_sommets (P : Nat → Prop) :
    ∀ (cles : List Nat) (tas : Option Noeud),
      sommetsOpt P tas → (∀ v ∈ cles, P v) →
      tailleOpt (cles.foldl (fun t v => ajouterNoeud t 9999 v) tas)
        = tailleOpt tas + cles.length ∧
      sommetsOpt P (cles.foldl (fun t v => ajouterNoeud t 9999 v) tas)
  | [], tas, hP, _ => ⟨rfl, hP⟩
  | v :: cles, tas, hP, hcl => by
    rw [List.foldl_cons]
    have hstep : tailleOpt (ajouterNoeud tas 9999 v) = tailleOpt tas + 1 ∧
        sommetsOpt P (ajouterNoeud tas 9999 v) := by
      cases tas with
      | none =>
        exact ⟨rfl, ⟨hcl v (List.mem_cons_self _ _), trivial⟩⟩
      | some n =>
        constructor
        · rw [ajouterNoeud]
          simp [tailleOpt, tailleN_fusionner, tailleN, tailleF]
        · exact sommetsN_fusionner P n _ hP ⟨hcl v (List.mem_cons_self _ _), trivial⟩
    have h := tasInitial_taille_sommets P cles (ajouterNoeud tas 9999 v) hstep.2
      (fun q hq => hcl q (List.mem_cons_of_mem _ hq))
    refine ⟨?_, h.2⟩
    rw [h.1, hstep.1, List.length_cons]
    omega

lemma supprimer_taille (tas : Option Noeud) (h : 1 ≤ tailleOpt tas) :
    tailleOpt (supprimerRacine tas) + 1 = tailleOpt tas := by
  cases tas with
  | none => rw [tailleOpt] at h; omega
  | some n =>
    cases n with
    | mk d s e =>
      rw [supprimerRacine, tailleOpt, tailleN, fusionnerPaires_taille e]
      omega

lemma supprimer_sommets (P : Nat → Prop) (tas : Option Noeud) (hP : sommetsOpt P tas) :
    sommetsOpt P (supprimerRacine tas) := by
  cases tas with
  | none => trivial
  | some n =>
    cases n with
    | mk d s e =>
      rw [supprimerRacine]
      cases hr : fusionnerPaires e with
      | none => trivial
      | some r => exact fusionnerPaires_sommets P e r hP.2 hr

lemma boucleHeap_arcs (numDest : Nat) (A : List (Nat × ListeArcs)) :
    ∀ (n : Nat) (s : EtatHeap),
      s.arcs = A →
      n ≤ tailleOpt s.tas →
      sommetsOpt (fun v => (lookupA A v).isSome = true) s.tas →
      (boucleHeap numDest n s).arcs = A
  | 0, s, hA, _, _ => hA
  | n + 1, s, hA, hn, hP => by
    rw [boucleHeap]
    by_cases hf : s.fini = true
    · rw [if_pos hf]
      exact hA
    · rw [if_neg hf]
      cases htas : s.tas with
      | none =>
        rw [htas, tailleOpt] at hn
        omega
      | some noeud =>
        cases noeud with
        | mk d0 s0 e0 =>
          have hraf : getRacine s.tas = (d0, s0) := by rw [htas]; rfl
          have hs0 : (lookupA A s0).isSome = true := by
            rw [htas] at hP
            exact hP.1
          have hrel := relaxerHeap_taille_sommets (fun v => (lookupA A v).isSome = true)
            s.actif d0 s0 (accesArcs s.arcs s0).2 s.tas s.pred hP
          have htas2 : (iterHeap numDest s).tas
              = supprimerRacine
                  (relaxerHeap s.actif d0 s0 (accesArcs s.arcs s0).2 s.tas s.pred).1 := by
            rw [iterHeap_tas, hraf]
          have hsize : tailleOpt s.tas = tailleF e0 + 1 := by
            rw [htas, tailleOpt, tailleN]
            omega
          have hge : 1 ≤ tailleOpt
              (relaxerHeap s.actif d0 s0 (accesArcs s.arcs s0).2 s.tas s.pred).1 := by
            rw [hrel.1, hsize]
            omega
          have hsup := supprimer_taille _ hge
          apply boucleHeap_arcs numDest A n (iterHeap numDest s)
          · show (accesArcs s.arcs (getRacine s.tas).2).1 = A
            rw [hraf]
            dsimp only
            rw [hA]
            exact accesArcs_fst hs0
          · rw [htas2]
            rw [hrel.1] at hsup
            omega
          · rw [htas2]
            exact supprimer_sommets _ _ hrel.2

lemma dijkstraComplet_arcs (g : Reseau) (numOrigine numDest : Nat)
    (r : Int × Option (List Nat) × List (Nat × ListeArcs)) (hwf : g.WF)
    (h : dijkstraComplet g numOrigine numDest = .ok r) : r.2.2 = g.m_arcs := by
  rw [dijkstraComplet] at h
  by_cases hg : (!sommetExiste g numOrigine || !sommetExiste g numDest) = true
  · rw [if_pos hg] at h
    cases h
  · rw [if_neg hg] at h
    cases h
    show (boucleDijkstra numDest g.nbSommets.toNat
      { arcs := g.m_arcs,
        dist := maj (fun v => if (lookupA g.m_arcs v).isSome then maxPoids else 0) numOrigine 0,
        pred := fun v => if (lookupA g.m_arcs v).isSome then (-1 : Int) else 0,
        ensQ := g.m_arcs.map (·.1) }).arcs = g.m_arcs
    apply boucleDijkstra_arcs
    · intro q hq
      exact lookup_de_mem_cles g.m_arcs q hq
    · show g.nbSommets.toNat ≤ (g.m_arcs.map (·.1)).length
      rw [List.length_map, hwf.2.2.2.2, Int.toNat_natCast]

lemma pccEtat_arcs (g : Reseau) (numOrigine numDest : Nat) (s : EtatHeap)
    (h : meilleurPCCEtat g numOrigine numDest = .ok s) : s.arcs = g.m_arcs := by
  rw [meilleurPCCEtat] at h
  by_cases hg : (!sommetExiste g numOrigine || !sommetExiste g numDest) = true
  · rw [if_pos hg] at h
    cases h
  · rw [if_neg hg] at h
    cases h
    show (boucleHeap numDest g.m_arcs.length
      { arcs := g.m_arcs,
        tas := diminuerDistance (tasInitial (g.m_arcs.map (·.1))) numOrigine 0,
        actif := fun v => (lookupA g.m_arcs v).isSome,
        pred := fun v => if (lookupA g.m_arcs v).isSome then 9999 else 0,
        longueur := 0, fini := false }).arcs = g.m_arcs
    have hinit := tasInitial_taille_sommets (fun v => (lookupA g.m_arcs v).isSome = true)
      (g.m_arcs.map (·.1)) none trivial (fun v hv => lookup_de_mem_cles g.m_arcs v hv)
    apply boucleHeap_arcs
    · rfl
    · show g.m_arcs.length ≤ tailleOpt (diminuerDistance (tasInitial (g.m_arcs.map (·.1)))
        numOrigine 0)
      rw [diminuer_taille, tasInitial, hinit.1, List.length_map]
      rw [tailleOpt]
      omega
    · show sommetsOpt _ (diminuerDistance (tasInitial (g.m_arcs.map (·.1))) numOrigine 0)
      exact diminuer_sommets _ _ _ _ hinit.2

/-- Claim C10: the path operations leave the network unchanged — the network
object after a `dijkstra` or a `meilleurPlusCourtChemin` call (its `m_arcs`
map as threaded through every `operator[]` access, and its two untouched
counters) equals the network before the call, on well-formed networks;
`bellmanFord` only iterates over `m_arcs` without indexing it and has no
other access to the object, so it cannot modify it at all. -/
theorem C10_confirme :
    ∀ (g : Reseau) (numOrigine numDest : Nat), g.WF →
      reseauApresDijkstra g numOrigine numDest = g ∧
      reseauApresHeap g numOrigine numDest = g := by
  intro g o d hwf
  constructor
  · rw [reseauApresDijkstra]
    cases hd : dijkstraComplet g o d with
    | error e => rfl
    | ok r =>
      dsimp only
      rw [dijkstraComplet_arcs g o d r hwf hd]
  · rw [reseauApresHeap]
    cases hs : meilleurPCCEtat g o d with
    | error e => rfl
    | ok s =>
      dsimp only
      rw [pccEtat_arcs g o d s hs]

/-- Claim C10, witness: on the reference network and the pair (1,4) both
operations leave the network equal to itself. -/
theorem C10_temoin :
    reseauApresDijkstra gRef 1 4 = gRef ∧ reseauApresHeap gRef 1 4 = gRef :=
  C10_confirme gRef 1 4 (by decide)

/-! ## Termination of the dense and relaxation reconstructions (claim C6) -/

lemma toU32_toI32 (n : Nat) (h : n < 4294967296) : toU32 (toI32 n) = n := by
  rw [toI32, Nat.mod_eq_of_lt h]
  by_cases h2 : n < 2147483648
  · rw [if_pos h2, toU32]
    omega
  · rw [if_neg h2, toU32]
    omega

lemma compte_exclus (K exclus : List Nat) (v : Nat) (hv : v ∈ K) (hnd : exclus.Nodup)
    (hvx : v ∉ exclus) (hsub : ∀ x ∈ exclus, x ∈ K) : exclus.length + 1 ≤ K.length := by
  have hnd2 : (v :: exclus).Nodup := List.nodup_cons.2 ⟨hvx, hnd⟩
  have hs : (v :: exclus) ⊆ K := by
    intro x hxm
    rcases List.mem_cons.1 hxm with h | h
    · rw [h]; exact hv
    · exact hsub x h
  have hle := (List.subperm_of_subset hnd2 hs).length_le
  rw [List.length_cons] at hle
  omega

/-- The generic reconstruction-termination argument: when the predecessor of
any key-set vertex is again a key-set vertex of strictly smaller measure,
the chain visits pairwise distinct vertices and the `while` loop stops
within one step per vertex plus the final sentinel test. -/
lemma remonter_atteint (K : List Nat) (pred : Nat → Int) (phi : Nat → Nat)
    (hKb : ∀ v ∈ K, v < 4294967296)
    (hK : ∀ v ∈ K, pred v ≠ -1 →
      toU32 (pred v) ∈ K ∧ pred v = toI32 (toU32 (pred v)) ∧
      phi (toU32 (pred v)) < phi v) :
    ∀ (fuel : Nat) (exclus : List Nat) (v : Nat) (acc : List Nat),
      v ∈ K → exclus.Nodup → (∀ x ∈ exclus, x ∈ K ∧ phi v < phi x) →
      K.length + 1 ≤ fuel + exclus.length →
      ∃ ch, remonterChemin pred fuel (toI32 v) acc = some ch := by
  intro fuel
  induction fuel with
  | zero =>
    intro exclus v acc hv hnd hx hlen
    exfalso
    have hvx : v ∉ exclus := fun hmem => lt_irrefl _ (hx v hmem).2
    have := compte_exclus K exclus v hv hnd hvx (fun x hxm => (hx x hxm).1)
    omega
  | succ f ih =>
    intro exclus v acc hv hnd hx hlen
    by_cases hI : toI32 v = -1
    · exact ⟨acc, by rw [remonterChemin, if_pos hI]⟩
    · rw [remonterChemin, if_neg hI, toU32_toI32 v (hKb v hv)]
      by_cases hp : pred v = -1
      · rcases Nat.eq_zero_or_pos f with hf | hf
        · exfalso
          have hvx : v ∉ exclus := fun hmem => lt_irrefl _ (hx v hmem).2
          have := compte_exclus K exclus v hv hnd hvx (fun x hxm => (hx x hxm).1)
          omega
        · obtain ⟨f2, hf2⟩ : ∃ f2, f = f2 + 1 := ⟨f - 1, by omega⟩
          rw [hp, hf2, remonterChemin, if_pos rfl]
          exact ⟨v :: acc, rfl⟩
      · obtain ⟨huK, heq, hphi⟩ := hK v hv hp
        rw [heq]
        apply ih (v :: exclus) (toU32 (pred v)) (v :: acc) huK
        · exact List.nodup_cons.2 ⟨fun hmem => lt_irrefl _ (hx v hmem).2, hnd⟩
        · intro x hxm
          rcases List.mem_cons.1 hxm with h | h
          · rw [h]; exact ⟨hv, hphi⟩
          · exact ⟨(hx x h).1, lt_trans hphi (hx x h).2⟩
        · rw [List.length_cons]
          omega

lemma relaxerDense_marche (K : List Nat) (nm : Nat) (ensQ2 : List Nat)
    (hnmK : nm ∈ K) (hnmQ : nm ∉ ensQ2) (hnmB : nm < 4294967296) :
    ∀ (adj : List (Nat × Nat × Nat)) (dist pred : Nat → Int) (phi : Nat → Nat),
      InvMarche K ensQ2 pred phi →
      ∃ phi2, InvMarche K ensQ2 (relaxerDense nm ensQ2 adj dist pred).2 phi2
  | [], _, _, phi, h => ⟨phi, h⟩
  | (voisin, poids, typ) :: reste, dist, pred, phi, h => by
    rw [relaxerDense]
    by_cases hin : voisin ∈ ensQ2
    · rw [if_pos hin]
      by_cases hlt : uadd32 poids (dist nm) < dist voisin
      · rw [if_pos hlt]
        apply relaxerDense_marche K nm ensQ2 hnmK hnmQ hnmB reste _ _
          (maj phi voisin (phi nm + 1))
        intro w hw hpw
        by_cases hwv : w = voisin
        · have hpv : maj pred voisin (toI32 nm) w = toI32 nm := by rw [maj, if_pos hwv]
          rw [hpv]
          rw [hpv] at hpw
          have hround : toU32 (toI32 nm) = nm := toU32_toI32 nm hnmB
          rw [hround]
          have hnmv : ¬(nm = voisin) := fun he => hnmQ (he ▸ hin)
          refine ⟨hnmK, rfl, hnmQ, ?_⟩
          rw [maj, if_neg hnmv, maj, if_pos hwv]
          omega
        · have hpv : maj pred voisin (toI32 nm) w = pred w := by rw [maj, if_neg hwv]
          rw [hpv]
          rw [hpv] at hpw
          obtain ⟨h1, h2, h3, h4⟩ := h w hw hpw
          refine ⟨h1, h2, h3, ?_⟩
          have huv : ¬(toU32 (pred w) = voisin) := fun he => h3 (he ▸ hin)
          rw [maj, if_neg huv, maj, if_neg hwv]
          exact h4
      · rw [if_neg hlt]
        exact relaxerDense_marche K nm ensQ2 hnmK hnmQ hnmB reste dist pred phi h
    · rw [if_neg hin]
      exact relaxerDense_marche K nm ensQ2 hnmK hnmQ hnmB reste dist pred phi h

lemma relaxerDense_vide (nm : Nat) :
    ∀ (adj : List (Nat × Nat × Nat)) (dist pred : Nat → Int),
      relaxerDense nm [] adj dist pred = (dist, pred)
  | [], _, _ => rfl
  | (voisin, poids, typ) :: reste, dist, pred => by
    rw [relaxerDense]
    rw [if_neg (List.not_mem_nil voisin)]
    exact relaxerDense_vide nm reste dist pred

lemma boucleDijkstra_marche (numDest : Nat) (K : List Nat)
    (hKb : ∀ v ∈ K, v < 4294967296) :
    ∀ (n : Nat) (s : EtatDijkstra) (phi : Nat → Nat),
      (∀ q ∈ s.ensQ, q ∈ K) → s.ensQ.Nodup →
      InvMarche K s.ensQ s.pred phi →
      ∃ phi2, InvMarche K (boucleDijkstra numDest n s).ensQ
        (boucleDijkstra numDest n s).pred phi2
  | 0, _, phi, _, _, h => ⟨phi, h⟩
  | n + 1, s, phi, hQK, hnd, h => by
    rw [boucleDijkstra]
    by_cases hQne : s.ensQ = []
    · rw [hQne]
      by_cases hd : noeudMinDe [] s.dist = numDest
      · rw [if_pos hd]
        rw [hQne] at h
        exact ⟨phi, h⟩
      · rw [if_neg hd]
        dsimp only
        rw [show ([] : List Nat).erase (noeudMinDe [] s.dist) = [] from rfl]
        rw [relaxerDense_vide]
        apply boucleDijkstra_marche numDest K hKb n _ phi
        · intro q hq
          cases hq
        · exact List.nodup_nil
        · rw [hQne] at h
          exact h
    · have hmem : noeudMinDe s.ensQ s.dist ∈ s.ensQ := noeudMinDe_mem _ _ hQne
      have hnmK : noeudMinDe s.ensQ s.dist ∈ K := hQK _ hmem
      have hnmQ2 : noeudMinDe s.ensQ s.dist ∉ s.ensQ.erase (noeudMinDe s.ensQ s.dist) :=
        hnd.not_mem_erase
      have hinv2 : InvMarche K (s.ensQ.erase (noeudMinDe s.ensQ s.dist)) s.pred phi := by
        intro w hw hpw
        obtain ⟨a, b, c, d2⟩ := h w hw hpw
        exact ⟨a, b, fun hc => c (List.erase_subset _ _ hc), d2⟩
      by_cases hd : noeudMinDe s.ensQ s.dist = numDest
      · rw [if_pos hd]
        exact ⟨phi, hinv2⟩
      · rw [if_neg hd]
        obtain ⟨phi2, hphi2⟩ := relaxerDense_marche K (noeudMinDe s.ensQ s.dist)
          (s.ensQ.erase (noeudMinDe s.ensQ s.dist)) hnmK hnmQ2 (hKb _ hnmK)
          (accesArcs s.arcs (noeudMinDe s.ensQ s.dist)).2 s.dist s.pred phi hinv2
        apply boucleDijkstra_marche numDest K hKb n _ phi2
        · intro q hq
          exact hQK q (List.erase_subset _ _ hq)
        · exact hnd.erase _
        · exact hphi2

/-- `dijkstra` terminates and returns a result (with a successfully
reconstructed path) for every pair of existing vertices of a well-formed
network: its predecessor chain is acyclic and the reconstruction fuel
`nbSommets + 1` is sufficient. -/
lemma dijkstra_termine (g : Reseau) (o d : Nat) (hwf : g.WF)
    (ho : sommetExiste g o = true) (hd : sommetExiste g d = true) :
    ∃ dist ch, dijkstra g o d = .ok (dist, some ch) := by
  have hdsm : (lookupA g.m_arcs d).isSome = true := by rw [sommetExiste] at hd; exact hd
  have hdK : d ∈ g.m_arcs.map (·.1) := mem_cles_de_lookup g.m_arcs d hdsm
  have hKb : ∀ v ∈ g.m_arcs.map (·.1), v < 4294967296 := by
    intro v hv
    obtain ⟨p, hp, hpv⟩ := List.mem_map.1 hv
    rw [← hpv]
    exact (hwf.2.2.2.1 p hp).1
  have hnd : (g.m_arcs.map (·.1)).Nodup := by
    have hpm : (g.m_arcs.map (·.1)).Pairwise (· < ·) := List.pairwise_map.2 hwf.1
    exact hpm.imp (fun h => Nat.ne_of_lt h)
  have hinv0 : InvMarche (g.m_arcs.map (·.1)) (g.m_arcs.map (·.1))
      (fun v => if (lookupA g.m_arcs v).isSome then (-1 : Int) else 0) (fun _ => 0) := by
    intro v hv hpv
    exfalso
    apply hpv
    have hvs : (lookupA g.m_arcs v).isSome = true := lookup_de_mem_cles _ v hv
    simp [hvs]
  obtain ⟨phi2, hinv⟩ := boucleDijkstra_marche d (g.m_arcs.map (·.1)) hKb g.nbSommets.toNat
    { arcs := g.m_arcs,
      dist := maj (fun v => if (lookupA g.m_arcs v).isSome then maxPoids else 0) o 0,
      pred := fun v => if (lookupA g.m_arcs v).isSome then (-1 : Int) else 0,
      ensQ := g.m_arcs.map (·.1) }
    (fun _ => 0) (fun q hq => hq) hnd hinv0
  rw [dijkstra, dijkstraComplet]
  rw [if_neg (by rw [ho, hd]; simp)]
  dsimp only
  set F := boucleDijkstra d g.nbSommets.toNat
    { arcs := g.m_arcs,
      dist := maj (fun v => if (lookupA g.m_arcs v).isSome then maxPoids else 0) o 0,
      pred := fun v => if (lookupA g.m_arcs v).isSome then (-1 : Int) else 0,
      ensQ := g.m_arcs.map (·.1) } with hF
  by_cases hpd : F.pred d = -1
  · refine ⟨F.dist d, [], ?_⟩
    rw [if_neg (not_not_intro hpd)]
    rfl
  · have hwalk : ∀ v ∈ g.m_arcs.map (·.1), F.pred v ≠ -1 →
        toU32 (F.pred v) ∈ g.m_arcs.map (·.1) ∧
        F.pred v = toI32 (toU32 (F.pred v)) ∧
        phi2 (toU32 (F.pred v)) < phi2 v := by
      intro v hv hp
      obtain ⟨a, b, _, c⟩ := hinv v hv hp
      exact ⟨a, b, c⟩
    have hlen : (g.m_arcs.map (·.1)).length + 1
        ≤ (g.nbSommets.toNat + 1) + ([] : List Nat).length := by
      rw [List.length_map, hwf.2.2.2.2, Int.toNat_natCast]
      simp
    obtain ⟨ch, hch⟩ := remonter_atteint (g.m_arcs.map (·.1)) F.pred phi2 hKb hwalk
      (g.nbSommets.toNat + 1) [] d [] hdK List.nodup_nil (by intro x hx; cases hx) hlen
    refine ⟨F.dist d, ch, ?_⟩
    rw [if_pos hpd]
    rw [hch]
    rfl

/-- With a bounded non-negative distance and a positive `int`-ranged weight,
the wrapped sum that passed the `temp >= 0` guard is the exact sum. -/
lemma uadd32_exact (w : Nat) (d : Int) (hd0 : 0 ≤ d) (hdm : d ≤ 2147483647)
    (hwm : w < 2147483648) (hpos : 0 ≤ uadd32 w d) : uadd32 w d = (w : Int) + d := by
  rw [uadd32, toU32, toI32] at hpos ⊢
  have hdn : ((d % 4294967296).toNat : Int) = d := by omega
  split_ifs at hpos ⊢ with h1
  · omega
  · omega

lemma relaxerBellman_pos (K : List Nat) (nc : Nat) (hncK : nc ∈ K) (hncB : nc < 4294967296) :
    ∀ (adj : List (Nat × Nat × Nat)) (dist pred : Nat → Int) (inst : Bool),
      (∀ q ∈ adj, 1 ≤ q.2.1 ∧ q.2.1 < 2147483648) →
      InvPos K dist pred →
      InvPos K (relaxerBellman nc adj dist pred inst).1
        (relaxerBellman nc adj dist pred inst).2.1
  | [], _, _, _, _, h => h
  | (voisin, poids, typ) :: reste, dist, pred, inst, hpds, h => by
    rw [relaxerBellman]
    by_cases hcond : uadd32 poids (dist nc) < dist voisin ∧ 0 ≤ uadd32 poids (dist nc)
    · rw [if_pos hcond]
      apply relaxerBellman_pos K nc hncK hncB reste _ _ true
        (fun q hq => hpds q (List.mem_cons_of_mem _ hq))
      have hw := hpds (voisin, poids, typ) (List.mem_cons_self _ _)
      have hexact : uadd32 poids (dist nc) = (poids : Int) + dist nc :=
        uadd32_exact poids (dist nc) (h.1 nc).1 (h.1 nc).2 hw.2 hcond.2
      have hcroit : dist nc < uadd32 poids (dist nc) := by
        rw [hexact]
        have h1 : (1 : Int) ≤ (poids : Int) := by exact_mod_cast hw.1
        omega
      have hncv : ¬(nc = voisin) := by
        intro he
        have hlt := lt_trans hcroit hcond.1
        rw [he] at hlt
        exact lt_irrefl _ hlt
      constructor
      · intro v
        rw [maj]
        by_cases hv : v = voisin
        · rw [if_pos hv]
          exact ⟨hcond.2, le_trans (le_of_lt hcond.1) (h.1 voisin).2⟩
        · rw [if_neg hv]
          exact h.1 v
      · intro w hw2 hpw
        by_cases hwv : w = voisin
        · have hpv : maj pred voisin (toI32 nc) w = toI32 nc := by rw [maj, if_pos hwv]
          rw [hpv]
          have hround : toU32 (toI32 nc) = nc := toU32_toI32 nc hncB
          rw [hround]
          refine ⟨hncK, rfl, ?_⟩
          rw [maj, if_neg hncv, maj, if_pos hwv]
          exact hcroit
        · have hpv : maj pred voisin (toI32 nc) w = pred w := by rw [maj, if_neg hwv]
          rw [hpv]
          rw [hpv] at hpw
          obtain ⟨a, b, c⟩ := h.2 w hw2 hpw
          refine ⟨a, b, ?_⟩
          rw [maj, maj, if_neg hwv]
          by_cases huv : toU32 (pred w) = voisin
          · rw [if_pos huv]
            rw [huv] at c
            exact lt_trans hcond.1 c
          · rw [if_neg huv]
            exact c
    · rw [if_neg hcond]
      exact relaxerBellman_pos K nc hncK hncB reste dist pred inst
        (fun q hq => hpds q (List.mem_cons_of_mem _ hq)) h

lemma passeBellman_pos (g : Reseau) (hwf : g.WF) (hpds : PoidsPositifs g) :
    ∀ (liste : List (Nat × ListeArcs)) (dist pred : Nat → Int) (inst : Bool),
      (∀ p ∈ liste, p ∈ g.m_arcs) →
      InvPos (g.m_arcs.map (·.1)) dist pred →
      InvPos (g.m_arcs.map (·.1)) (passeBellman liste dist pred inst).1
        (passeBellman liste dist pred inst).2.1
  | [], _, _, _, _, h => h
  | (nc, adj) :: reste, dist, pred, inst, hmem, h => by
    rw [passeBellman]
    have hncm : (nc, adj) ∈ g.m_arcs := hmem (nc, adj) (List.mem_cons_self _ _)
    have hncK : nc ∈ g.m_arcs.map (·.1) := List.mem_map.2 ⟨(nc, adj), hncm, rfl⟩
    have hncB : nc < 4294967296 := (hwf.2.2.2.1 (nc, adj) hncm).1
    by_cases hd : dist nc < maxPoids
    · rw [if_pos hd]
      exact passeBellman_pos g hwf hpds reste _ _ _
        (fun p hp => hmem p (List.mem_cons_of_mem _ hp))
        (relaxerBellman_pos (g.m_arcs.map (·.1)) nc hncK hncB adj dist pred inst
          (fun q hq => hpds (nc, adj) hncm q hq) h)
    · rw [if_neg hd]
      exact passeBellman_pos g hwf hpds reste dist pred inst
        (fun p hp => hmem p (List.mem_cons_of_mem _ hp)) h

lemma bouclesBellman_pos (g : Reseau) (hwf : g.WF) (hpds : PoidsPositifs g) :
    ∀ (n : Nat) (dist pred : Nat → Int),
      InvPos (g.m_arcs.map (·.1)) dist pred →
      InvPos (g.m_arcs.map (·.1)) (bouclesBellman g.m_arcs n dist pred).1
        (bouclesBellman g.m_arcs n dist pred).2
  | 0, _, _, h => h
  | n + 1, dist, pred, h => by
    rw [bouclesBellman]
    have hp := passeBellman_pos g hwf hpds g.m_arcs dist pred false (fun p hp => hp) h
    by_cases hs : (passeBellman g.m_arcs dist pred false).2.2 = true
    · rw [if_pos hs]
      exact bouclesBellman_pos g hwf hpds n _ _ hp
    · rw [if_neg hs]
      exact ⟨hp.1, hp.2⟩

/-- `bellmanFord` terminates and returns a result (with a successfully
reconstructed path) for every pair of existing vertices of a well-formed
network with strictly positive `int`-ranged weights: distances strictly
decrease along its predecessor chain, so the chain is acyclic. -/
lemma bellmanFord_termine (g : Reseau) (o d : Nat) (hwf : g.WF) (hpds : PoidsPositifs g)
    (ho : sommetExiste g o = true) (hd : sommetExiste g d = true) :
    ∃ dist ch, bellmanFord g o d = .ok (dist, some ch) := by
  have hdsm : (lookupA g.m_arcs d).isSome = true := by rw [sommetExiste] at hd; exact hd
  have hdK : d ∈ g.m_arcs.map (·.1) := mem_cles_de_lookup g.m_arcs d hdsm
  have hKb : ∀ v ∈ g.m_arcs.map (·.1), v < 4294967296 := by
    intro v hv
    obtain ⟨p, hp, hpv⟩ := List.mem_map.1 hv
    rw [← hpv]
    exact (hwf.2.2.2.1 p hp).1
  have hinv0 : InvPos (g.m_arcs.map (·.1))
      (maj (fun v => if (lookupA g.m_arcs v).isSome then maxPoids else 0) o 0)
      (fun v => if (lookupA g.m_arcs v).isSome then (-1 : Int) else 0) := by
    constructor
    · intro v
      rw [maj]
      by_cases hv : v = o
      · rw [if_pos hv]
        simp [maxPoids]
      · rw [if_neg hv]
        by_cases hs : (lookupA g.m_arcs v).isSome = true <;> simp [hs, maxPoids]
    · intro v hv hpv
      exfalso
      apply hpv
      have hvs : (lookupA g.m_arcs v).isSome = true := lookup_de_mem_cles _ v hv
      simp [hvs]
  have hfin := bouclesBellman_pos g hwf hpds (g.nbSommets - 1).toNat
    (maj (fun v => if (lookupA g.m_arcs v).isSome then maxPoids else 0) o 0)
    (fun v => if (lookupA g.m_arcs v).isSome then (-1 : Int) else 0) hinv0
  rw [bellmanFord]
  rw [if_neg (by rw [ho, hd]; simp)]
  dsimp only
  set F := bouclesBellman g.m_arcs (g.nbSommets - 1).toNat
    (maj (fun v => if (lookupA g.m_arcs v).isSome then maxPoids else 0) o 0)
    (fun v => if (lookupA g.m_arcs v).isSome then (-1 : Int) else 0) with hF
  by_cases hpd : F.2 d = -1
  · refine ⟨F.1 d, [], ?_⟩
    rw [if_neg (not_not_intro hpd)]
  · have hwalk : ∀ v ∈ g.m_arcs.map (·.1), F.2 v ≠ -1 →
        toU32 (F.2 v) ∈ g.m_arcs.map (·.1) ∧
        F.2 v = toI32 (toU32 (F.2 v)) ∧
        (F.1 (toU32 (F.2 v))).toNat < (F.1 v).toNat := by
      intro v hv hp
      obtain ⟨a, b, c⟩ := hfin.2 v hv hp
      refine ⟨a, b, ?_⟩
      have hb : (0 : Int) < F.1 v := lt_of_le_of_lt (hfin.1 (toU32 (F.2 v))).1 c
      exact (Int.toNat_lt_toNat hb).2 c
    have hlen : (g.m_arcs.map (·.1)).length + 1
        ≤ (g.nbSommets.toNat + 1) + ([] : List Nat).length := by
      rw [List.length_map, hwf.2.2.2.2, Int.toNat_natCast]
      simp
    obtain ⟨ch, hch⟩ := remonter_atteint (g.m_arcs.map (·.1)) F.2
      (fun v => (F.1 v).toNat) hKb hwalk
      (g.nbSommets.toNat + 1) [] d [] hdK List.nodup_nil (by intro x hx; cases hx) hlen
    refine ⟨F.1 d, ch, ?_⟩
    rw [if_pos hpd]
    rw [hch]

/-- C6: Amended termination claim. `dijkstra` terminates with a result for
every pair of existing vertices of a well-formed network, and `bellmanFord`
does too when all arc weights are strictly positive and below 2^31; the heap
variant `meilleurPlusCourtChemin` however runs forever on the two-vertex
network with no arcs, where the destination is unreachable. -/
theorem C6_amende :
    (∀ (g : Reseau) (o d : Nat), g.WF → sommetExiste g o = true →
      sommetExiste g d = true →
      ∃ dist ch, dijkstra g o d = .ok (dist, some ch)) ∧
    (∀ (g : Reseau) (o d : Nat), g.WF → PoidsPositifs g →
      sommetExiste g o = true → sommetExiste g d = true →
      ∃ dist ch, bellmanFord g o d = .ok (dist, some ch)) ∧
    heapDiverge gDeux 1 2 :=
  ⟨fun g o d hwf ho hd => dijkstra_termine g o d hwf ho hd,
   fun g o d hwf hp ho hd => bellmanFord_termine g o d hwf hp ho hd,
   gDeux_diverge⟩

/-- C6 witness: both universal parts applied on the reference network. -/
theorem C6_temoin :
    (∃ dist ch, dijkstra gRef 1 4 = .ok (dist, some ch)) ∧
    (∃ dist ch, bellmanFord gRef 1 4 = .ok (dist, some ch)) :=
  ⟨C6_amende.1 gRef 1 4 (by decide) (by decide) (by decide),
   C6_amende.2.1 gRef 1 4 (by decide) (by decide) (by decide) (by decide)⟩
